import Mathlib

/-
  Shallow embedding of libsigrok's CSV and gnuplot output modules
  (src/output/csv.c and src/output/gnuplot.c).

  Text is modelled as `List Char`; chunk data as `List Nat` (byte values);
  machine subtraction on `uint64_t` is modelled by `sub64` with an explicit
  `% 2 ^ 64`.  External inputs that the modules only consume (PACKAGE_STRING,
  ctime output, sr_samplerate_string / sr_period_string results, the resolved
  sample rate from sr_config_get) are passed in as parameters.
-/

namespace Sigrok

/-- libsigrok status code SR_OK (0). -/
def SR_OK : Int := 0

/-- libsigrok status code SR_ERR (-1). -/
def SR_ERR : Int := -1

/-- libsigrok status code SR_ERR_MALLOC (-2). -/
def SR_ERR_MALLOC : Int := -2

/-- libsigrok status code SR_ERR_ARG (-3). -/
def SR_ERR_ARG : Int := -3

/-- Channel kind: SR_CHANNEL_LOGIC or anything else. -/
inductive ChannelType where
  | logic
  | other
deriving DecidableEq

/-- One entry of sdi->channels: name, type and enabled flag. -/
structure SrChannel where
  name : List Char
  type : ChannelType
  enabled : Bool
deriving DecidableEq

/-- A datafeed packet: either SR_DF_LOGIC carrying (length, unitsize, data),
or any other packet type. -/
inductive Packet where
  | logic (length unitsize : Nat) (data : List Nat)
  | other
deriving DecidableEq

/-- C `uint64_t` subtraction `a - b`, i.e. subtraction modulo 2^64
(this is how `logic->length - logic->unitsize` is computed in both
receive functions). -/
def sub64 (a b : Nat) : Nat := (a % 2 ^ 64 + (2 ^ 64 - b % 2 ^ 64)) % 2 ^ 64

/-- The counting loop shared by both init functions:
walk sdi->channels and count entries with type SR_CHANNEL_LOGIC and
enabled true (ctx->num_enabled_channels). -/
def num_enabled_channels (chs : List SrChannel) : Nat :=
  chs.foldl (fun n ch => if ch.type = ChannelType.logic ∧ ch.enabled = true then n + 1 else n) 0

/-- The channel_index construction loop shared by both init functions:
walk sdi->channels with running index `i`, recording `i` for each enabled
logic channel (ctx->channel_index). -/
def channelIndexFrom (i : Nat) : List SrChannel → List Nat
  | [] => []
  | ch :: rest =>
    if ch.type = ChannelType.logic ∧ ch.enabled = true then i :: channelIndexFrom (i + 1) rest
    else channelIndexFrom (i + 1) rest

/-- The enabled logic channels of a channel list, in original order. -/
def enabledLogic (chs : List SrChannel) : List SrChannel :=
  chs.filter (fun ch => decide (ch.type = ChannelType.logic ∧ ch.enabled = true))

/-- The `unitsize` bytes starting at byte offset `i` of the chunk buffer
(a read past the supplied buffer is modelled as the byte 0). -/
def readUnit (data : List Nat) (i us : Nat) : List Nat :=
  (List.range us).map (fun k => data.getD (i + k) 0)

/-- The `k`-th complete unit of a chunk (bytes `k*us .. k*us + us - 1`). -/
def chunkUnit (data : List Nat) (us k : Nat) : List Nat := readUnit data (k * us) us

/-- All complete units of a chunk of `len` bytes with unit size `us`. -/
def chunkUnits (data : List Nat) (len us : Nat) : List (List Nat) :=
  (List.range (len / us)).map (fun k => chunkUnit data us k)

/-- The units of all SR_DF_LOGIC packets of a stream, in order. -/
def streamUnits : List Packet → List (List Nat)
  | [] => []
  | Packet.logic len us data :: ps => chunkUnits data len us ++ streamUnits ps
  | Packet.other :: ps => streamUnits ps

/-- The list of byte offsets visited by the loop
`for (i = 0; i <= bound; i += us)` where `bound` was computed by `sub64`.
The `us = 0` guard only serves termination; both callers have `us ≥ 1`.
csv.c's `i` is a `uint64_t`: for `bound < 2^64 - us` (every in-contract
chunk) it never wraps and this Nat-indexed walk is exact.  At the
underflowed bound `2^64 - 1` (length < unitsize) this model stops after
the `2^64`-th offset where the C loop's wrapping `i` never exits — the
C2 theorems rely only on the first offsets being visited, which is common
to both behaviours. -/
def loopOffsets (bound us i : Nat) : List Nat :=
  if us = 0 ∨ bound < i then [] else i :: loopOffsets bound us (i + us)
termination_by bound + 1 - i
decreasing_by all_goals simp only [not_or] at *; omega

/-- csv.c receive: the value `c = *p & (1 << (idx % 8))` for the byte at
`data + i + idx / 8`. -/
def csvBitVal (byte idx : Nat) : Nat := byte &&& (1 <<< (idx % 8))

/-- csv.c receive: the character appended for one channel of one sample,
`c ? '1' : '0'`. -/
def csvBitChar (byte idx : Nat) : Char := if csvBitVal byte idx ≠ 0 then '1' else '0'

/-- csv.c receive: the text appended for the sample starting at chunk offset
`i`: one bit character plus separator per selected channel, the final
separator dropped when at least one channel is enabled, then a newline. -/
def csvRow (data : List Nat) (i : Nat) (sel : List Nat) (sep : Char) : List Char :=
  let body := sel.foldl (fun acc idx => acc ++ [csvBitChar (data.getD (i + idx / 8) 0) idx, sep]) []
  (if sel.length ≠ 0 then body.dropLast else body) ++ ['\n']

/-- csv.c receive: the data rows produced for one SR_DF_LOGIC chunk. -/
def csvChunkRows (sel : List Nat) (sep : Char) (data : List Nat) (len us : Nat) : List Char :=
  ((loopOffsets (sub64 len us) us 0).map (fun i => csvRow data i sel sep)).flatten

/-- The state struct context of csv.c. -/
structure CsvContext where
  num_enabled_channels : Nat
  samplerate : Nat
  header : Option (List Char)
  separator : Char
  channel_index : List Nat
deriving DecidableEq

/-- csv.c init: the header GString.  `pkg` is PACKAGE_STRING, `timestr` the
ctime output, `samplerate` the ctx->samplerate value (0 when unknown). -/
def csvHeader (pkg timestr : List Char) (samplerate : Nat) (chs : List SrChannel) : List Char :=
  let h1 := "; CSV, generated by ".data ++ pkg ++ " on ".data ++ timestr
  let h2 := h1 ++ "; Samplerate: ".data ++ (Nat.repr samplerate).data ++ "\n".data
  let h3 := h2 ++ "; Channels (".data ++ (Nat.repr (num_enabled_channels chs)).data ++ "/".data
      ++ (Nat.repr chs.length).data ++ "):".data
  let h4 := h3 ++ (enabledLogic chs).foldl (fun acc ch => acc ++ " ".data ++ ch.name ++ ",".data) []
  (if chs ≠ [] then h4.dropLast else h4) ++ "\n".data

/-- csv.c init: build the context.  `samplerate_config` is the result of
sr_config_get for SR_CONF_SAMPLERATE (`none` when it does not return SR_OK). -/
def csvInit (pkg timestr : List Char) (samplerate_config : Option Nat) (chs : List SrChannel) :
    CsvContext × Int :=
  let sr := match samplerate_config with | some r => r | none => 0
  ({ num_enabled_channels := num_enabled_channels chs
     samplerate := sr
     header := some (csvHeader pkg timestr sr chs)
     separator := ','
     channel_index := channelIndexFrom 0 chs }, SR_OK)

/-- csv.c receive: on SR_DF_LOGIC, seed the output with the pending header
(clearing it) or a fresh buffer, then append the chunk's rows; on any other
packet type leave `*out` NULL and return SR_OK. -/
def csvReceive (ctx : CsvContext) (p : Packet) : CsvContext × Option (List Char) × Int :=
  match p with
  | Packet.other => (ctx, none, SR_OK)
  | Packet.logic len us data =>
    let seed := match ctx.header with | some h => h | none => []
    ({ ctx with header := none },
     some (seed ++ csvChunkRows ctx.channel_index ctx.separator data len us), SR_OK)

/-- Feed a packet sequence through csv.c receive, collecting the produced
output buffers in order. -/
def csvRun (ctx : CsvContext) : List Packet → CsvContext × List (List Char)
  | [] => (ctx, [])
  | p :: ps =>
    let r := csvReceive ctx p
    let rest := csvRun r.1 ps
    (rest.1, match r.2.1 with | some b => b :: rest.2 | none => rest.2)

/-- gnuplot.c receive: the value
`curbit = (sample[idx / 8] & ((uint8_t)(1 << (idx % 8)))) >> (idx % 8)`. -/
def gnuplotCurbit (byte idx : Nat) : Nat :=
  (byte &&& ((1 <<< (idx % 8)) % 256)) >>> (idx % 8)

/-- gnuplot.c receive: the text of one emitted row: the sample counter,
a tab, one decimal bit plus space per selected channel, then a newline. -/
def gnuplotRowText (sel : List Nat) (sc : Nat) (sample : List Nat) : List Char :=
  (Nat.repr sc).data ++ "\t".data
    ++ (sel.map (fun idx =>
        (Nat.repr (gnuplotCurbit (sample.getD (idx / 8) 0) idx)).data ++ " ".data)).flatten
    ++ "\n".data

/-- gnuplot.c receive: the chunk loop.  Walks offsets `i = 0, us, 2*us, ...`
while `i <= bound`; per unit increments the sample counter, suppresses the
unit when it is neither the chunk's first (`i > 0`) nor last (`i < bound`)
offset and compares equal to prevsample (`continue` also skips the memcpy),
otherwise records prevsample := sample and emits the pair
(counter, sample).  Returns the final counter, final prevsample and the
emitted (counter, sample) pairs in order.
The C loop's `i` is a 32-bit unsigned int while this walk uses Nat: the
two agree exactly when `bound + us < 2^32` (in particular for chunk
lengths below 2^32), the region all gnuplot loop theorems are stated on;
for larger bounds the C counter wraps and the loop never terminates. -/
def gnuplotLoop (data : List Nat) (us bound : Nat) (i sc : Nat) (prev : List Nat) :
    Nat × List Nat × List (Nat × List Nat) :=
  if us = 0 ∨ bound < i then (sc, prev, [])
  else
    let sample := readUnit data i us
    if 0 < i ∧ i < bound ∧ sample = prev then
      gnuplotLoop data us bound (i + us) (sc + 1) prev
    else
      let r := gnuplotLoop data us bound (i + us) (sc + 1) sample
      (r.1, r.2.1, (sc + 1, sample) :: r.2.2)
termination_by bound + 1 - i
decreasing_by all_goals simp only [not_or] at *; omega

/-- The state struct context of gnuplot.c. -/
structure GnuplotContext where
  num_enabled_channels : Nat
  samplecount : Nat
  header : Option (List Char)
  prevsample : Option (List Nat)
  channel_index : List Nat
deriving DecidableEq

/-- gnuplot.c init: the wbuf loop appending `# <i+1>\t\t<name>\n` per
enabled logic channel, `i` being the channel's index in the full list. -/
def gnuplotWbufFrom (i : Nat) : List SrChannel → List Char
  | [] => []
  | ch :: rest =>
    if ch.type = ChannelType.logic ∧ ch.enabled = true then
      "# ".data ++ (Nat.repr (i + 1)).data ++ "\t\t".data ++ ch.name ++ "\n".data
        ++ gnuplotWbufFrom (i + 1) rest
    else gnuplotWbufFrom (i + 1) rest

/-- gnuplot.c init: the comment buffer.  Empty when sr_config_get fails;
otherwise the snprintf output, truncated to 126 characters.
`srStr` is the sr_samplerate_string rendering of the rate. -/
def gnuplotComment (srStr : Nat → List Char) (cfg : Option Nat) (enabled total : Nat) : List Char :=
  match cfg with
  | none => []
  | some rate =>
    ("# Comment: Acquisition with ".data ++ (Nat.repr enabled).data ++ "/".data
      ++ (Nat.repr total).data ++ " channels at ".data ++ srStr rate ++ "\n".data).take 126

/-- gnuplot.c init: the header GString, the gnuplot_header format string
applied to PACKAGE_STRING, the ctime output, the comment, the period
string and the wbuf column listing. -/
def gnuplotHeader (pkg timestr comment period wbuf : List Char) : List Char :=
  "# Sample data in space-separated columns format usable by gnuplot\n#\n# Generated by: ".data
  ++ pkg ++ " on ".data ++ timestr ++ comment
  ++ "# Period: ".data ++ period
  ++ "\n#\n# Column\tChannel\n# -----------------------------------------------------------------------------\n# 0\t\tSample counter (for internal gnuplot purposes)\n".data
  ++ wbuf ++ "\n".data

/-- gnuplot.c init.  Fails with SR_ERR when no logic channel is enabled;
otherwise builds channel_index and the header.  `srStr` and `periodStr`
model sr_samplerate_string and sr_period_string (assumed to succeed). -/
def gnuplotInit (pkg timestr : List Char) (srStr periodStr : Nat → List Char)
    (samplerate_config : Option Nat) (chs : List SrChannel) : Option GnuplotContext × Int :=
  if num_enabled_channels chs = 0 then (none, SR_ERR)
  else
    let samplerate := match samplerate_config with | some r => r | none => 0
    let comment := gnuplotComment srStr samplerate_config (num_enabled_channels chs) chs.length
    (some { num_enabled_channels := num_enabled_channels chs
            samplecount := 0
            header := some (gnuplotHeader pkg timestr comment (periodStr samplerate)
              (gnuplotWbufFrom 0 chs))
            prevsample := none
            channel_index := channelIndexFrom 0 chs }, SR_OK)

/-- Result of one gnuplot.c receive call: the updated context, the produced
buffer (`none` for non-logic packets), the return code, and the emitted
(counter, sample) pairs whose renderings make up the buffer's rows.
The counter field models the `uint64_t` ctx->samplecount: theorems that
expose counter values carry a no-wrap bound (initial count plus units
processed below `2^64`) so the Nat value coincides with the C value. -/
structure GRecv where
  ctx : GnuplotContext
  out : Option (List Char)
  rc : Int
  pairs : List (Nat × List Nat)
deriving DecidableEq

/-- gnuplot.c receive: non-logic packets return SR_OK leaving `*out` NULL
and the context untouched.  For SR_DF_LOGIC: lazily allocate prevsample as
`unitsize` zero bytes, seed the output with the pending header (resetting
samplecount to 0 and clearing the header slot) or a fresh buffer, then run
the chunk loop; the buffer receives one gnuplotRowText rendering per
emitted pair.  Faithful on in-contract chunks (`0 < unitsize`, length
below 2^32, non-wrapping samplecount), the region the logic-chunk
theorems assume: for `unitsize = 0` the C code instead fails with
SR_ERR_MALLOC (g_malloc0(0) is NULL) or never leaves the `i += 0` loop,
and for lengths ≥ 2^32 its 32-bit loop counter never exits. -/
def gnuplotReceive (ctx : GnuplotContext) (p : Packet) : GRecv :=
  match p with
  | Packet.other => ⟨ctx, none, SR_OK, []⟩
  | Packet.logic len us data =>
    let prev := match ctx.prevsample with | some ps => ps | none => List.replicate us 0
    let sc0 := match ctx.header with | some _ => 0 | none => ctx.samplecount
    let seed := match ctx.header with | some h => h | none => []
    let r := gnuplotLoop data us (sub64 len us) 0 sc0 prev
    ⟨{ ctx with header := none, samplecount := r.1, prevsample := some r.2.1 },
     some (seed ++ (r.2.2.map (fun pr => gnuplotRowText ctx.channel_index pr.1 pr.2)).flatten),
     SR_OK, r.2.2⟩

/-- Feed a packet sequence through gnuplot.c receive, collecting the
produced buffers and the emitted (counter, sample) pairs in order. -/
def gnuplotRun (ctx : GnuplotContext) :
    List Packet → GnuplotContext × List (List Char) × List (Nat × List Nat)
  | [] => (ctx, [], [])
  | p :: ps =>
    let r := gnuplotReceive ctx p
    let rest := gnuplotRun r.ctx ps
    (rest.1, (match r.out with | some b => b :: rest.2.1 | none => rest.2.1),
     r.pairs ++ rest.2.2)

/-- A well-formed SR_DF_LOGIC chunk per the caller contract: positive unit
size dividing a positive length, length within uint64 range. -/
def wfPacket (p : Packet) : Prop :=
  match p with
  | Packet.logic len us _ => 0 < us ∧ us ∣ len ∧ 0 < len ∧ len < 2 ^ 64
  | Packet.other => True

instance : DecidablePred wfPacket := fun p =>
  match p with
  | Packet.logic _ _ _ => inferInstanceAs (Decidable (_ ∧ _ ∧ _ ∧ _))
  | Packet.other => inferInstanceAs (Decidable True)

/-- A well-formed SR_DF_LOGIC chunk whose length also stays below 2^32.
gnuplot.c's loop counter `i` is a 32-bit unsigned int: for lengths below
2^32 it never wraps and the C loop behaves exactly like the Nat-indexed
model; for larger lengths the C loop never terminates, so theorems about
the gnuplot loop are stated on this region only. -/
def wfPacket32 (p : Packet) : Prop :=
  match p with
  | Packet.logic len us _ => 0 < us ∧ us ∣ len ∧ 0 < len ∧ len < 2 ^ 32
  | Packet.other => True

instance : DecidablePred wfPacket32 := fun p =>
  match p with
  | Packet.logic _ _ _ => inferInstanceAs (Decidable (_ ∧ _ ∧ _ ∧ _))
  | Packet.other => inferInstanceAs (Decidable True)

/-- `pat` occurs in `s` at position `p`. -/
def occursAtB (pat s : List Char) (p : Nat) : Bool := decide ((s.drop p).take pat.length = pat)

/-- All positions at which `pat` occurs in `s`. -/
def occList (pat s : List Char) : List Nat := (List.range (s.length + 1)).filter (occursAtB pat s)

/-- Number of positions at which `pat` occurs in `s`. -/
def countOcc (pat s : List Char) : Nat := (occList pat s).length

/-- `pat` occurs somewhere in `s`. -/
def containsSub (pat s : List Char) : Bool := (List.range (s.length + 1)).any (occursAtB pat s)

/-! Basic arithmetic and helper lemmas. -/

theorem two_pow_64_eq : (2 : Nat) ^ 64 = 18446744073709551616 := by norm_num

theorem sub64_of_le (a b : Nat) (hb : b ≤ a) (ha : a < 2 ^ 64) : sub64 a b = a - b := by
  unfold sub64
  rw [two_pow_64_eq] at *
  omega

theorem digitChar_isDigit (m : Nat) (hm : m < 10) : (Nat.digitChar m).isDigit = true := by
  interval_cases m <;> decide

theorem toDigitsCore_isDigit (fuel : Nat) :
    ∀ (n : Nat) (ds : List Char), (∀ c ∈ ds, c.isDigit = true) →
    ∀ c ∈ Nat.toDigitsCore 10 fuel n ds, c.isDigit = true := by
  induction fuel with
  | zero => intro n ds hds c hc; exact hds c hc
  | succ fuel ih =>
    intro n ds hds c hc
    rw [Nat.toDigitsCore] at hc
    by_cases h : n / 10 = 0
    · rw [if_pos h] at hc
      rcases List.mem_cons.mp hc with h1 | h1
      · subst h1; exact digitChar_isDigit _ (Nat.mod_lt _ (by norm_num))
      · exact hds c h1
    · rw [if_neg h] at hc
      refine ih (n / 10) _ ?_ c hc
      intro d hd
      rcases List.mem_cons.mp hd with h1 | h1
      · subst h1; exact digitChar_isDigit _ (Nat.mod_lt _ (by norm_num))
      · exact hds d h1

theorem repr_isDigit (n : Nat) : ∀ c ∈ (Nat.repr n).data, c.isDigit = true := by
  have h : (Nat.repr n).data = Nat.toDigitsCore 10 (n + 1) n [] := rfl
  rw [h]
  exact toDigitsCore_isDigit (n + 1) n [] (by simp)

theorem repr_not_mem (n : Nat) (c : Char) (hc : c.isDigit = false) : c ∉ (Nat.repr n).data := by
  intro h
  have h2 := repr_isDigit n c h
  rw [hc] at h2
  exact Bool.false_ne_true h2

/-! Channel selection lemmas. -/

theorem channelIndexFrom_eq (chs : List SrChannel) :
    ∀ k, channelIndexFrom k chs
      = ((List.enumFrom k chs).filter
          (fun pr => decide (pr.2.type = ChannelType.logic ∧ pr.2.enabled = true))).map Prod.fst := by
  induction chs with
  | nil => intro k; rfl
  | cons ch rest ih =>
    intro k
    by_cases h : ch.type = ChannelType.logic ∧ ch.enabled = true <;>
      simp [channelIndexFrom, List.enumFrom, h, ih]

theorem channelIndexFrom_length (chs : List SrChannel) :
    ∀ k, (channelIndexFrom k chs).length
      = chs.countP (fun ch => decide (ch.type = ChannelType.logic ∧ ch.enabled = true)) := by
  induction chs with
  | nil => intro k; rfl
  | cons ch rest ih =>
    intro k
    by_cases h : ch.type = ChannelType.logic ∧ ch.enabled = true <;>
      simp [channelIndexFrom, h, ih, List.countP_cons]

theorem num_enabled_channels_aux (chs : List SrChannel) :
    ∀ n, chs.foldl
        (fun n ch => if ch.type = ChannelType.logic ∧ ch.enabled = true then n + 1 else n) n
      = n + chs.countP (fun ch => decide (ch.type = ChannelType.logic ∧ ch.enabled = true)) := by
  induction chs with
  | nil => intro n; simp
  | cons ch rest ih =>
    intro n
    by_cases h : ch.type = ChannelType.logic ∧ ch.enabled = true <;>
      simp [h, ih, List.countP_cons] <;> omega

theorem num_enabled_channels_eq (chs : List SrChannel) :
    num_enabled_channels chs
      = chs.countP (fun ch => decide (ch.type = ChannelType.logic ∧ ch.enabled = true)) := by
  have h := num_enabled_channels_aux chs 0
  simpa [num_enabled_channels] using h

/-! Loop offset lemmas. -/

theorem loopOffsets_length (bound us i : Nat) : 0 < us → i ≤ bound →
    (loopOffsets bound us i).length = (bound - i) / us + 1 := by
  induction i using loopOffsets.induct bound us with
  | case1 i h =>
    intro hus hi
    rcases h with h | h <;> omega
  | case2 i h ih =>
    intro hus hi
    rw [loopOffsets, if_neg h]
    by_cases h2 : i + us ≤ bound
    · rw [List.length_cons, ih hus h2]
      have h3 : bound - i = (bound - (i + us)) + us := by omega
      rw [h3, Nat.add_div_right _ hus]
    · rw [loopOffsets, if_pos (Or.inr (by omega))]
      have h3 : (bound - i) / us = 0 := Nat.div_eq_of_lt (by omega)
      simp [h3]

/-! Bit extraction lemmas. -/

theorem bit_extract (b k : Nat) (hk : k < 8) :
    (b &&& ((1 <<< k) % 256)) >>> k = (b >>> k) &&& 1
    ∧ (b &&& (1 <<< k) ≠ 0 ↔ (b >>> k) &&& 1 = 1) := by
  have h1 : (1 : Nat) <<< k = 2 ^ k := by rw [Nat.shiftLeft_eq, one_mul]
  have h2 : (2 : Nat) ^ k < 256 := by
    calc (2 : Nat) ^ k < 2 ^ 8 := Nat.pow_lt_pow_right (by norm_num) hk
    _ = 256 := by norm_num
  have h3 : b &&& 2 ^ k = (b.testBit k).toNat * 2 ^ k := Nat.and_two_pow b k
  have h4 : (b >>> k) &&& 1 = (b.testBit k).toNat := by
    have h5 := Nat.and_two_pow (b >>> k) 0
    simpa [Nat.testBit_shiftRight] using h5
  constructor
  · rw [h1, Nat.mod_eq_of_lt h2, h3, Nat.shiftRight_eq_div_pow,
      Nat.mul_div_cancel _ (Nat.two_pow_pos k), h4]
  · rw [h1, h3, h4]
    cases b.testBit k <;> simp

/-! Characterization of the gnuplot chunk loop.  For a chunk of `n` complete
units (`bound = (n-1)*us`), starting at unit `k` with the invariant that
prevsample holds unit `k-1` (except at `k = 0`, where the comparison is
skipped), the loop emits exactly the units that are the chunk's first or
last or differ from their predecessor, with counters `sc + j + 1`. -/

theorem gnuplotLoop_spec (data : List Nat) (us n : Nat) (hus : 0 < us) (hn : 0 < n) :
    ∀ (d k : Nat), k + d = n - 1 →
    ∀ (sc : Nat) (prev : List Nat), (k = 0 ∨ prev = chunkUnit data us (k - 1)) →
    gnuplotLoop data us ((n - 1) * us) (k * us) sc prev
      = (sc + (n - k), chunkUnit data us (n - 1),
         ((List.range' k (n - k)).filter
            (fun j => decide (j = 0 ∨ j = n - 1 ∨ chunkUnit data us j ≠ chunkUnit data us (j - 1)))).map
           (fun j => (sc + (j - k) + 1, chunkUnit data us j))) := by
  intro d
  induction d with
  | zero =>
    intro k hk sc prev hprev
    have hk1 : k = n - 1 := by omega
    subst hk1
    rw [gnuplotLoop, if_neg (by push_neg; omega)]
    rw [if_neg (by push_neg; intro _ h2; omega)]
    rw [gnuplotLoop, if_pos (Or.inr (by nlinarith))]
    have hnk : n - (n - 1) = 1 := by omega
    rw [hnk, List.range'_one]
    have hkeep : (fun j => decide (j = 0 ∨ j = n - 1 ∨
        chunkUnit data us j ≠ chunkUnit data us (j - 1))) (n - 1) = true := by
      simp
    rw [List.filter_cons, if_pos hkeep]
    simp [chunkUnit, readUnit]
  | succ d ih =>
    intro k hk sc prev hprev
    have hklt : k < n - 1 := by omega
    have hilt : k * us < (n - 1) * us := (Nat.mul_lt_mul_right hus).mpr hklt
    rw [gnuplotLoop, if_neg (by push_neg; omega)]
    have hsample : readUnit data (k * us) us = chunkUnit data us k := rfl
    have hrec : k * us + us = (k + 1) * us := (Nat.succ_mul k us).symm
    have hnk : n - k = (n - (k + 1)) + 1 := by omega
    by_cases hc : 0 < k * us ∧ k * us < (n - 1) * us ∧ readUnit data (k * us) us = prev
    · -- suppressed: unit k equals the previous unit and is neither chunk-first nor chunk-last
      have hkpos : 0 < k := by
        rcases hc with ⟨h1, -, -⟩
        by_contra h
        push_neg at h
        interval_cases k
        simp at h1
      have hpeq : prev = chunkUnit data us (k - 1) := hprev.resolve_left (by omega)
      have heq : chunkUnit data us k = chunkUnit data us (k - 1) := by
        rw [← hpeq, ← hsample]
        exact hc.2.2
      rw [if_pos hc, hrec]
      rw [ih (k + 1) (by omega) (sc + 1) prev (Or.inr (by simpa using hpeq.trans heq.symm))]
      have hdrop : decide (k = 0 ∨ k = n - 1 ∨
          chunkUnit data us k ≠ chunkUnit data us (k - 1)) = false := by
        simp only [decide_eq_false_iff_not]
        push_neg
        exact ⟨by omega, by omega, heq⟩
      rw [hnk, List.range'_succ, List.filter_cons, if_neg (by simp [hdrop])]
      simp only [Prod.mk.injEq]
      refine ⟨by omega, trivial, ?_⟩
      apply List.map_congr_left
      intro j hj
      have hjmem := List.mem_range'.mp (List.mem_filter.mp hj).1
      rcases hjmem with ⟨t, ht, hjt⟩
      simp only [Prod.mk.injEq]
      exact ⟨by omega, trivial⟩
    · -- emitted: chunk-first, chunk-last, or differing from the previous unit
      rw [if_neg hc, hrec]
      rw [ih (k + 1) (by omega) (sc + 1) (readUnit data (k * us) us) (Or.inr (by simpa using hsample))]
      have hkeep : decide (k = 0 ∨ k = n - 1 ∨
          chunkUnit data us k ≠ chunkUnit data us (k - 1)) = true := by
        simp only [decide_eq_true_eq]
        by_cases hk0 : k = 0
        · exact Or.inl hk0
        · refine Or.inr (Or.inr ?_)
          have hpeq : prev = chunkUnit data us (k - 1) := hprev.resolve_left hk0
          intro heq
          apply hc
          refine ⟨by positivity, hilt, ?_⟩
          rw [hsample, heq, ← hpeq]
      rw [hnk, List.range'_succ, List.filter_cons, if_pos hkeep]
      simp only [Prod.mk.injEq, List.map_cons, List.cons.injEq]
      refine ⟨by omega, trivial, ⟨by omega, hsample⟩, ?_⟩
      apply List.map_congr_left
      intro j hj
      have hjmem := List.mem_range'.mp (List.mem_filter.mp hj).1
      rcases hjmem with ⟨t, ht, hjt⟩
      simp only [Prod.mk.injEq]
      exact ⟨by omega, trivial⟩

/-- Specialization of gnuplotLoop_spec to the loop entry point (`i = 0`). -/

theorem gnuplotLoop_chunk (data : List Nat) (us n sc : Nat) (prev : List Nat)
    (hus : 0 < us) (hn : 0 < n) :
    gnuplotLoop data us ((n - 1) * us) 0 sc prev
      = (sc + n, chunkUnit data us (n - 1),
         ((List.range n).filter
            (fun j => decide (j = 0 ∨ j = n - 1 ∨
              chunkUnit data us j ≠ chunkUnit data us (j - 1)))).map
           (fun j => (sc + j + 1, chunkUnit data us j))) := by
  have h := gnuplotLoop_spec data us n hus hn (n - 1) 0 (by omega) sc prev (Or.inl rfl)
  rw [Nat.zero_mul] at h
  simpa [List.range_eq_range', Nat.sub_zero] using h

/-- For a well-formed chunk, the `uint64_t` bound `length - unitsize`
equals `(n - 1) * unitsize` where `n` is the number of complete units. -/

theorem sub64_chunk (len us : Nat) (hus : 0 < us) (hdvd : us ∣ len) (hlen : 0 < len)
    (hbig : len < 2 ^ 64) : sub64 len us = (len / us - 1) * us := by
  obtain ⟨n, rfl⟩ := hdvd
  have hn : 0 < n := by
    rcases Nat.eq_zero_or_pos n with h | h
    · subst h; simp at hlen
    · exact h
  have hle : us ≤ us * n := Nat.le_mul_of_pos_right us hn
  rw [sub64_of_le _ _ hle hbig, Nat.mul_div_cancel_left n hus, Nat.sub_mul, one_mul,
    Nat.mul_comm]

/-- gnuplot.c receive on a well-formed SR_DF_LOGIC chunk, fully evaluated:
the resulting context, buffer, return code and emitted pairs. -/

theorem gnuplotReceive_logic (ctx : GnuplotContext) (len us : Nat) (data : List Nat)
    (hus : 0 < us) (hdvd : us ∣ len) (hlen : 0 < len) (hbig : len < 2 ^ 64) :
    gnuplotReceive ctx (Packet.logic len us data)
      = ⟨{ ctx with
             header := none,
             samplecount := (match ctx.header with | some _ => 0 | none => ctx.samplecount)
               + len / us,
             prevsample := some (chunkUnit data us (len / us - 1)) },
         some ((match ctx.header with | some h => h | none => [])
           ++ (((List.range (len / us)).filter
                 (fun j => decide (j = 0 ∨ j = len / us - 1 ∨
                   chunkUnit data us j ≠ chunkUnit data us (j - 1)))).map
               (fun j => gnuplotRowText ctx.channel_index
                 ((match ctx.header with | some _ => 0 | none => ctx.samplecount) + j + 1)
                 (chunkUnit data us j))).flatten),
         SR_OK,
         ((List.range (len / us)).filter
            (fun j => decide (j = 0 ∨ j = len / us - 1 ∨
              chunkUnit data us j ≠ chunkUnit data us (j - 1)))).map
           (fun j => ((match ctx.header with | some _ => 0 | none => ctx.samplecount) + j + 1,
              chunkUnit data us j))⟩ := by
  have hn : 0 < len / us := Nat.div_pos (Nat.le_of_dvd hlen hdvd) hus
  simp only [gnuplotReceive]
  rw [sub64_chunk len us hus hdvd hlen hbig,
    gnuplotLoop_chunk data us (len / us) _ _ hus hn]
  simp only [List.map_map]
  rfl

/-- Both receive functions ignore non-logic packets without touching state. -/

theorem csvReceive_other (ctx : CsvContext) :
    csvReceive ctx Packet.other = (ctx, none, SR_OK) := rfl

theorem gnuplotReceive_other (ctx : GnuplotContext) :
    gnuplotReceive ctx Packet.other = ⟨ctx, none, SR_OK, []⟩ := rfl

/-! Filter corollaries for runs of identical units. -/

theorem filter_keep_allsame (data : List Nat) (us n : Nat)
    (hall : ∀ j < n, chunkUnit data us j = chunkUnit data us 0) (h2 : 2 ≤ n) :
    (List.range n).filter
      (fun j => decide (j = 0 ∨ j = n - 1 ∨ chunkUnit data us j ≠ chunkUnit data us (j - 1)))
      = [0, n - 1] := by
  have e1 : n = ((n - 2) + 1) + 1 := by omega
  have e2 : (0 : Nat) + 1 * ((n - 2) + 1) = n - 1 := by omega
  have hsplitr : List.range n = ([0] ++ List.range' 1 (n - 2)) ++ [n - 1] := by
    rw [List.range_eq_range']
    conv_lhs => rw [e1]
    rw [List.range'_concat, e2]
    congr 1
  rw [hsplitr, List.filter_append, List.filter_append]
  have hz : (List.filter
      (fun j => decide (j = 0 ∨ j = n - 1 ∨ chunkUnit data us j ≠ chunkUnit data us (j - 1)))
      [0]) = [0] := by
    simp
  have hmid : (List.filter
      (fun j => decide (j = 0 ∨ j = n - 1 ∨ chunkUnit data us j ≠ chunkUnit data us (j - 1)))
      (List.range' 1 (n - 2))) = [] := by
    rw [List.filter_eq_nil_iff]
    intro j hj
    rcases List.mem_range'.mp hj with ⟨t, ht, hjt⟩
    simp only [decide_eq_true_eq]
    push_neg
    refine ⟨by omega, by omega, ?_⟩
    rw [hall j (by omega), hall (j - 1) (by omega)]
  have hlast : (List.filter
      (fun j => decide (j = 0 ∨ j = n - 1 ∨ chunkUnit data us j ≠ chunkUnit data us (j - 1)))
      [n - 1]) = [n - 1] := by
    simp
  rw [hz, hmid, hlast]
  rfl

/-! Character-set lemmas for row text. -/

theorem csvRow_body_chars (data : List Nat) (i : Nat) (sep : Char) (sel : List Nat) :
    ∀ (acc : List Char), (∀ c ∈ acc, c = '0' ∨ c = '1' ∨ c = sep) →
    ∀ c ∈ sel.foldl
      (fun acc idx => acc ++ [csvBitChar (data.getD (i + idx / 8) 0) idx, sep]) acc,
    c = '0' ∨ c = '1' ∨ c = sep := by
  induction sel with
  | nil => intro acc hacc c hc; exact hacc c hc
  | cons idx rest ih =>
    intro acc hacc c hc
    simp only [List.foldl_cons] at hc
    refine ih _ ?_ c hc
    intro d hd
    rcases List.mem_append.mp hd with h | h
    · exact hacc d h
    · rcases List.mem_cons.mp h with h1 | h1
      · subst h1
        unfold csvBitChar
        split
        · right; left; rfl
        · left; rfl
      · rcases List.mem_cons.mp h1 with h2 | h2
        · subst h2; right; right; rfl
        · simp at h2

theorem csvRow_chars (data : List Nat) (i : Nat) (sel : List Nat) (sep : Char) :
    ∀ c ∈ csvRow data i sel sep, c = '0' ∨ c = '1' ∨ c = sep ∨ c = '\n' := by
  intro c hc
  unfold csvRow at hc
  rcases List.mem_append.mp hc with h | h
  · have hbody : ∀ d ∈ sel.foldl
        (fun acc idx => acc ++ [csvBitChar (data.getD (i + idx / 8) 0) idx, sep]) [],
        d = '0' ∨ d = '1' ∨ d = sep := csvRow_body_chars data i sep sel [] (by simp)
    have hmem : c ∈ sel.foldl
        (fun acc idx => acc ++ [csvBitChar (data.getD (i + idx / 8) 0) idx, sep]) [] := by
      split at h
      · exact List.dropLast_subset _ h
      · exact h
    rcases hbody c hmem with h1 | h1 | h1
    · exact Or.inl h1
    · exact Or.inr (Or.inl h1)
    · exact Or.inr (Or.inr (Or.inl h1))
  · rcases List.mem_cons.mp h with h1 | h1
    · exact Or.inr (Or.inr (Or.inr h1))
    · simp at h1

theorem csvChunkRows_chars (sel : List Nat) (sep : Char) (data : List Nat) (len us : Nat) :
    ∀ c ∈ csvChunkRows sel sep data len us, c = '0' ∨ c = '1' ∨ c = sep ∨ c = '\n' := by
  intro c hc
  unfold csvChunkRows at hc
  rcases List.mem_flatten.mp hc with ⟨l, hl, hcl⟩
  rcases List.mem_map.mp hl with ⟨i, hi, rfl⟩
  exact csvRow_chars data i sel sep c hcl

theorem gnuplotRowText_chars (sel : List Nat) (sc : Nat) (sample : List Nat) :
    ∀ c ∈ gnuplotRowText sel sc sample,
      c.isDigit = true ∨ c = '\t' ∨ c = ' ' ∨ c = '\n' := by
  intro c hc
  unfold gnuplotRowText at hc
  have htab : "\t".data = ['\t'] := rfl
  have hsp : " ".data = [' '] := rfl
  have hnl : "\n".data = ['\n'] := rfl
  rw [htab, hsp, hnl] at hc
  rcases List.mem_append.mp hc with h | h
  · rcases List.mem_append.mp h with h1 | h1
    · rcases List.mem_append.mp h1 with h2 | h2
      · exact Or.inl (repr_isDigit sc c h2)
      · rcases List.mem_cons.mp h2 with h3 | h3
        · exact Or.inr (Or.inl h3)
        · simp at h3
    · rcases List.mem_flatten.mp h1 with ⟨l, hl, hcl⟩
      rcases List.mem_map.mp hl with ⟨idx, hidx, rfl⟩
      rcases List.mem_append.mp hcl with h2 | h2
      · exact Or.inl (repr_isDigit _ c h2)
      · rcases List.mem_cons.mp h2 with h3 | h3
        · exact Or.inr (Or.inr (Or.inl h3))
        · simp at h3
  · rcases List.mem_cons.mp h with h1 | h1
    · exact Or.inr (Or.inr (Or.inr h1))
    · simp at h1

/-! Header shape lemmas: each header starts with its comment marker. -/

theorem csvHeader_shape (pkg timestr : List Char) (sr : Nat) (chs : List SrChannel) :
    ∃ t, csvHeader pkg timestr sr chs = ';' :: t := by
  unfold csvHeader
  have hlit : "; CSV, generated by ".data = ';' :: " CSV, generated by ".data := rfl
  simp only [List.append_assoc, hlit, List.cons_append]
  by_cases h : chs = []
  · rw [if_neg (by simp [h])]
    exact ⟨_, rfl⟩
  · rw [if_pos h, List.dropLast_cons_of_ne_nil (by simp)]
    exact ⟨_, rfl⟩

set_option maxRecDepth 4000 in
theorem gnuplotHeader_shape (pkg timestr comment period wbuf : List Char) :
    ∃ t, gnuplotHeader pkg timestr comment period wbuf = '#' :: t := by
  unfold gnuplotHeader
  have hlit :
      "# Sample data in space-separated columns format usable by gnuplot\n#\n# Generated by: ".data
        = '#' :: " Sample data in space-separated columns format usable by gnuplot\n#\n# Generated by: ".data := rfl
  simp only [List.append_assoc, hlit, List.cons_append]
  exact ⟨_, rfl⟩

/-! Substring occurrence machinery. -/

theorem occursAtB_zero (h r : List Char) : occursAtB h (h ++ r) 0 = true := by
  simp [occursAtB, List.take_left]

theorem occursAtB_count (pat s : List Char) (p : Nat) (hp : occursAtB pat s p = true)
    (c : Char) : List.count c pat ≤ List.count c (s.drop p) := by
  simp only [occursAtB, decide_eq_true_eq] at hp
  have hsplit : pat ++ (s.drop p).drop pat.length = s.drop p := by
    conv_rhs => rw [← List.take_append_drop pat.length (s.drop p)]
    rw [hp]
  rw [← hsplit, List.count_append]
  omega

theorem filter_range_single (f : Nat → Bool) (n m : Nat) (hm : m < n)
    (hf : ∀ k, f k = true ↔ k = m) : (List.range n).filter f = [m] := by
  have hcongr : (List.range n).filter f = (List.range n).filter (fun k => k == m) := by
    apply List.filter_congr
    intro k _
    rw [Bool.eq_iff_iff, hf k, beq_iff_eq]
  rw [hcongr, List.filter_beq,
    List.count_eq_one_of_mem (List.nodup_range n) (List.mem_range.mpr hm)]
  simp

theorem countOcc_prefix_unique (h r : List Char) (c : Char) (t : List Char)
    (hh : h = c :: t) (hr : c ∉ r) : countOcc h (h ++ r) = 1 := by
  have hcnth : 1 ≤ List.count c h := by
    rw [hh, List.count_cons]
    simp
  have honly : ∀ p, occursAtB h (h ++ r) p = true ↔ p = 0 := by
    intro p
    constructor
    · intro hp
      by_contra hne
      have hp1 : 1 ≤ p := Nat.one_le_iff_ne_zero.mpr hne
      have hcount := occursAtB_count h (h ++ r) p hp c
      have hsum : List.count c ((h ++ r).take p) + List.count c ((h ++ r).drop p)
          = List.count c (h ++ r) := by
        rw [← List.count_append, List.take_append_drop]
      have hall : List.count c (h ++ r) = List.count c h := by
        rw [List.count_append, List.count_eq_zero.mpr hr]
        omega
      have htake : 1 ≤ List.count c ((h ++ r).take p) := by
        obtain ⟨q, rfl⟩ : ∃ q, p = q + 1 := ⟨p - 1, by omega⟩
        rw [hh, List.cons_append, List.take_succ_cons, List.count_cons]
        simp
      omega
    · intro hp
      subst hp
      exact occursAtB_zero h r
  unfold countOcc occList
  rw [filter_range_single (occursAtB h (h ++ r)) ((h ++ r).length + 1) 0 (by omega) honly]
  rfl

theorem containsSub_false (pat b : List Char) (c : Char) (hc : c ∈ pat) (hb : c ∉ b) :
    containsSub pat b = false := by
  unfold containsSub
  rw [List.any_eq_false]
  intro p _
  intro hocc
  have h1 := occursAtB_count pat b p hocc c
  have h2 : List.count c (b.drop p) ≤ List.count c b := by
    conv_rhs => rw [← List.take_append_drop p b]
    rw [List.count_append]
    omega
  have h3 : 1 ≤ List.count c pat := List.count_pos_iff.mpr hc
  have h4 : List.count c b = 0 := List.count_eq_zero.mpr hb
  omega

/-! Stream-run lemmas for the csv variant. -/

theorem csvRun_none (ps : List Packet) : ∀ (ctx : CsvContext),
    ctx.header = none → ctx.separator = ',' →
    ∀ b ∈ (csvRun ctx ps).2, ∀ c ∈ b, c = '0' ∨ c = '1' ∨ c = ',' ∨ c = '\n' := by
  induction ps with
  | nil => intro ctx _ _ b hb; simp [csvRun] at hb
  | cons p rest ih =>
    intro ctx hh hsep b hb
    cases p with
    | other =>
      simp only [csvRun, csvReceive] at hb
      exact ih ctx hh hsep b hb
    | logic len us data =>
      simp only [csvRun, csvReceive, hh] at hb
      rcases List.mem_cons.mp hb with h1 | h1
      · subst h1
        intro c hc
        rcases List.mem_append.mp hc with h2 | h2
        · simp at h2
        · rw [hsep] at h2
          exact csvChunkRows_chars ctx.channel_index ',' data len us c h2
      · exact ih { ctx with header := none } rfl hsep b h1

theorem csvRun_some (ps : List Packet) : ∀ (ctx : CsvContext) (H : List Char),
    ctx.header = some H → ctx.separator = ',' →
    ((¬ ∃ p ∈ ps, p ≠ Packet.other) → (csvRun ctx ps).2 = [])
    ∧ ((∃ p ∈ ps, p ≠ Packet.other) → ∃ r rest, (csvRun ctx ps).2 = (H ++ r) :: rest
        ∧ (∀ c ∈ r, c = '0' ∨ c = '1' ∨ c = ',' ∨ c = '\n')
        ∧ (∀ b ∈ rest, ∀ c ∈ b, c = '0' ∨ c = '1' ∨ c = ',' ∨ c = '\n')) := by
  induction ps with
  | nil =>
    intro ctx H hh hsep
    refine ⟨fun _ => rfl, fun h => ?_⟩
    rcases h with ⟨p, hp, _⟩
    simp at hp
  | cons p rest ih =>
    intro ctx H hh hsep
    cases p with
    | other =>
      have hstep : (csvRun ctx (Packet.other :: rest)).2 = (csvRun ctx rest).2 := by
        simp [csvRun, csvReceive]
      rw [hstep]
      constructor
      · intro h
        exact (ih ctx H hh hsep).1 (fun ⟨p, hp, hne⟩ => h ⟨p, List.mem_cons_of_mem _ hp, hne⟩)
      · intro h
        rcases h with ⟨p, hp, hne⟩
        rcases List.mem_cons.mp hp with h1 | h1
        · subst h1; simp at hne
        · exact (ih ctx H hh hsep).2 ⟨p, h1, hne⟩
    | logic len us data =>
      have hstep : (csvRun ctx (Packet.logic len us data :: rest)).2
          = (H ++ csvChunkRows ctx.channel_index ctx.separator data len us)
            :: (csvRun { ctx with header := none } rest).2 := by
        simp [csvRun, csvReceive, hh]
      rw [hstep]
      constructor
      · intro h
        exact absurd ⟨Packet.logic len us data, List.mem_cons_self _ _, by simp⟩ h
      · intro _
        refine ⟨csvChunkRows ctx.channel_index ctx.separator data len us,
          (csvRun { ctx with header := none } rest).2, rfl, ?_, ?_⟩
        · intro c hc
          rw [hsep] at hc
          exact csvChunkRows_chars ctx.channel_index ',' data len us c hc
        · exact csvRun_none rest { ctx with header := none } rfl hsep

/-! Stream-run lemmas for the gnuplot variant. -/

theorem gnuplotRows_chars (sel : List Nat) (pairs : List (Nat × List Nat)) :
    ∀ c ∈ (pairs.map (fun pr => gnuplotRowText sel pr.1 pr.2)).flatten,
      c.isDigit = true ∨ c = '\t' ∨ c = ' ' ∨ c = '\n' := by
  intro c hc
  rcases List.mem_flatten.mp hc with ⟨l, hl, hcl⟩
  rcases List.mem_map.mp hl with ⟨pr, hpr, rfl⟩
  exact gnuplotRowText_chars sel pr.1 pr.2 c hcl

theorem gnuplotReceive_parts (ctx : GnuplotContext) (len us : Nat) (data : List Nat) :
    (gnuplotReceive ctx (Packet.logic len us data)).ctx.header = none
    ∧ (gnuplotReceive ctx (Packet.logic len us data)).out
      = some ((match ctx.header with | some h => h | none => [])
          ++ (((gnuplotReceive ctx (Packet.logic len us data)).pairs).map
              (fun pr => gnuplotRowText ctx.channel_index pr.1 pr.2)).flatten) := by
  constructor
  · rfl
  · rfl

theorem gnuplotRun_none (ps : List Packet) : ∀ (ctx : GnuplotContext),
    ctx.header = none →
    ∀ b ∈ (gnuplotRun ctx ps).2.1, ∀ c ∈ b,
      c.isDigit = true ∨ c = '\t' ∨ c = ' ' ∨ c = '\n' := by
  induction ps with
  | nil => intro ctx _ b hb; simp [gnuplotRun] at hb
  | cons p rest ih =>
    intro ctx hh b hb
    cases p with
    | other =>
      simp only [gnuplotRun, gnuplotReceive] at hb
      exact ih ctx hh b hb
    | logic len us data =>
      simp only [gnuplotRun, gnuplotReceive, hh] at hb
      rcases List.mem_cons.mp hb with h1 | h1
      · subst h1
        intro c hc
        rcases List.mem_append.mp hc with h2 | h2
        · simp at h2
        · exact gnuplotRows_chars ctx.channel_index _ c h2
      · exact ih _ rfl b h1

theorem gnuplotRun_some (ps : List Packet) : ∀ (ctx : GnuplotContext) (H : List Char),
    ctx.header = some H →
    ((¬ ∃ p ∈ ps, p ≠ Packet.other) → (gnuplotRun ctx ps).2.1 = [])
    ∧ ((∃ p ∈ ps, p ≠ Packet.other) → ∃ r rest, (gnuplotRun ctx ps).2.1 = (H ++ r) :: rest
        ∧ (∀ c ∈ r, c.isDigit = true ∨ c = '\t' ∨ c = ' ' ∨ c = '\n')
        ∧ (∀ b ∈ rest, ∀ c ∈ b, c.isDigit = true ∨ c = '\t' ∨ c = ' ' ∨ c = '\n')) := by
  induction ps with
  | nil =>
    intro ctx H hh
    refine ⟨fun _ => rfl, fun h => ?_⟩
    rcases h with ⟨p, hp, _⟩
    simp at hp
  | cons p rest ih =>
    intro ctx H hh
    cases p with
    | other =>
      have hstep : (gnuplotRun ctx (Packet.other :: rest)).2.1 = (gnuplotRun ctx rest).2.1 := by
        simp [gnuplotRun, gnuplotReceive]
      rw [hstep]
      constructor
      · intro h
        exact (ih ctx H hh).1 (fun ⟨p, hp, hne⟩ => h ⟨p, List.mem_cons_of_mem _ hp, hne⟩)
      · intro h
        rcases h with ⟨p, hp, hne⟩
        rcases List.mem_cons.mp hp with h1 | h1
        · subst h1; simp at hne
        · exact (ih ctx H hh).2 ⟨p, h1, hne⟩
    | logic len us data =>
      have hstep : (gnuplotRun ctx (Packet.logic len us data :: rest)).2.1
          = ((gnuplotReceive ctx (Packet.logic len us data)).out.getD [])
            :: (gnuplotRun (gnuplotReceive ctx (Packet.logic len us data)).ctx rest).2.1 := by
        simp only [gnuplotRun]
        rw [(gnuplotReceive_parts ctx len us data).2]
        rfl
      rw [hstep, (gnuplotReceive_parts ctx len us data).2, hh]
      constructor
      · intro h
        exact absurd ⟨Packet.logic len us data, List.mem_cons_self _ _, by simp⟩ h
      · intro _
        refine ⟨_, _, rfl, ?_, ?_⟩
        · intro c hc
          exact gnuplotRows_chars ctx.channel_index _ c hc
        · exact gnuplotRun_none rest _ (gnuplotReceive_parts ctx len us data).1
/-! Helpers about chunk units. -/

theorem chunkUnits_length (data : List Nat) (len us : Nat) :
    (chunkUnits data len us).length = len / us := by
  simp [chunkUnits]

theorem chunkUnits_getD (data : List Nat) (len us j : Nat) (hj : j < len / us) :
    (chunkUnits data len us).getD j [] = chunkUnit data us j := by
  unfold chunkUnits
  rw [List.getD_eq_getElem?_getD, List.getElem?_map, List.getElem?_range hj]
  rfl

/-- Membership in the emitted pairs of one well-formed chunk, extracted. -/

theorem mem_chunk_pairs (data : List Nat) (us m sc0 : Nat) (pr : Nat × List Nat)
    (hpr : pr ∈ ((List.range m).filter
        (fun j => decide (j = 0 ∨ j = m - 1 ∨
          chunkUnit data us j ≠ chunkUnit data us (j - 1)))).map
      (fun j => (sc0 + j + 1, chunkUnit data us j))) :
    ∃ j, j < m ∧ pr = (sc0 + j + 1, chunkUnit data us j) := by
  rcases List.mem_map.mp hpr with ⟨j, hj, rfl⟩
  exact ⟨j, List.mem_range.mp (List.mem_filter.mp hj).1, rfl⟩

/-- The sample counter across a whole gnuplot stream: starting from a context
whose counter is `n` (necessarily `0` while the header is still pending), the
final counter is `n` plus the total unit count, every emitted pair's counter
is the 1-based stream position of the unit it carries, and the emitted
counters are strictly increasing. -/

theorem gnuplotRun_spec (ps : List Packet) : ∀ (ctx : GnuplotContext) (n : Nat),
    (∀ p ∈ ps, wfPacket p) →
    ctx.samplecount = n → (ctx.header ≠ none → n = 0) →
    (gnuplotRun ctx ps).1.samplecount = n + (streamUnits ps).length
    ∧ (∀ pr ∈ (gnuplotRun ctx ps).2.2,
        n + 1 ≤ pr.1 ∧ pr.1 ≤ n + (streamUnits ps).length
        ∧ pr.2 = (streamUnits ps).getD (pr.1 - 1 - n) [])
    ∧ List.Pairwise (fun a b => a.1 < b.1) (gnuplotRun ctx ps).2.2 := by
  induction ps with
  | nil =>
    intro ctx n _ hsc _
    refine ⟨by simpa [gnuplotRun, streamUnits] using hsc, ?_, ?_⟩
    · intro pr hpr; simp [gnuplotRun] at hpr
    · simp [gnuplotRun]
  | cons p rest ih =>
    intro ctx n hwf hsc hreset
    cases p with
    | other =>
      have hsu : streamUnits (Packet.other :: rest) = streamUnits rest := rfl
      have h1 : gnuplotRun ctx (Packet.other :: rest)
          = ((gnuplotRun ctx rest).1, (gnuplotRun ctx rest).2.1, (gnuplotRun ctx rest).2.2) := by
        simp [gnuplotRun, gnuplotReceive]
      rw [hsu, h1]
      exact ih ctx n (fun q hq => hwf q (List.mem_cons_of_mem _ hq)) hsc hreset
    | logic len us data =>
      obtain ⟨hus, hdvd, hlen, hbig⟩ := hwf _ (List.mem_cons_self _ _)
      have hsc0 : (match ctx.header with | some _ => 0 | none => ctx.samplecount) = n := by
        cases hh : ctx.header with
        | some h => exact (hreset (by simp [hh])).symm
        | none => exact hsc
      have hrl := gnuplotReceive_logic ctx len us data hus hdvd hlen hbig
      rw [hsc0] at hrl
      have hsu : streamUnits (Packet.logic len us data :: rest)
          = chunkUnits data len us ++ streamUnits rest := rfl
      have hculen : (chunkUnits data len us).length = len / us := chunkUnits_length data len us
      have hrun : gnuplotRun ctx (Packet.logic len us data :: rest)
          = ((gnuplotRun (gnuplotReceive ctx (Packet.logic len us data)).ctx rest).1,
             ((gnuplotReceive ctx (Packet.logic len us data)).out.getD [])
               :: (gnuplotRun (gnuplotReceive ctx (Packet.logic len us data)).ctx rest).2.1,
             (gnuplotReceive ctx (Packet.logic len us data)).pairs
               ++ (gnuplotRun (gnuplotReceive ctx (Packet.logic len us data)).ctx rest).2.2) := by
        simp only [gnuplotRun]
        rw [hrl]
        rfl
      have hctx2 : (gnuplotReceive ctx (Packet.logic len us data)).ctx.samplecount
          = n + len / us := by
        rw [hrl]
      have hctxh : (gnuplotReceive ctx (Packet.logic len us data)).ctx.header = none := by
        rw [hrl]
      have hrest := ih (gnuplotReceive ctx (Packet.logic len us data)).ctx (n + len / us)
        (fun q hq => hwf q (List.mem_cons_of_mem _ hq)) hctx2
        (fun hcontra => absurd hctxh hcontra)
      have hpairs : (gnuplotReceive ctx (Packet.logic len us data)).pairs
          = ((List.range (len / us)).filter
              (fun j => decide (j = 0 ∨ j = len / us - 1 ∨
                chunkUnit data us j ≠ chunkUnit data us (j - 1)))).map
            (fun j => (n + j + 1, chunkUnit data us j)) := by
        rw [hrl]
      rw [hsu, hrun]
      refine ⟨?_, ?_, ?_⟩
      · rw [hrest.1, List.length_append, hculen]
        omega
      · intro pr hpr
        rcases List.mem_append.mp hpr with hc | hc
        · rw [hpairs] at hc
          obtain ⟨j, hjm, rfl⟩ := mem_chunk_pairs data us (len / us) n pr hc
          refine ⟨by omega, ?_, ?_⟩
          · rw [List.length_append, hculen]
            omega
          · have hidx : n + j + 1 - 1 - n = j := by omega
            show chunkUnit data us j = _
            rw [hidx, List.getD_append _ _ _ _ (by rw [hculen]; omega),
              chunkUnits_getD data len us j hjm]
        · obtain ⟨h1, h2, h3⟩ := hrest.2.1 pr hc
          refine ⟨by omega, ?_, ?_⟩
          · rw [List.length_append, hculen]
            omega
          · rw [List.getD_append_right _ _ _ _ (by rw [hculen]; omega), hculen]
            have hidx : pr.1 - 1 - n - len / us = pr.1 - 1 - (n + len / us) := by omega
            rw [hidx]
            exact h3
      · rw [List.pairwise_append]
        refine ⟨?_, hrest.2.2, ?_⟩
        · rw [hpairs, List.pairwise_map]
          exact ((List.pairwise_lt_range _).filter _).imp (fun hab => by omega)
        · intro a ha b hb
          rw [hpairs] at ha
          obtain ⟨j, hjm, rfl⟩ := mem_chunk_pairs data us (len / us) n a ha
          obtain ⟨h1, -, -⟩ := hrest.2.1 b hb
          show n + j + 1 < b.1
          omega

/-! Helpers for locating comment markers inside built headers. -/

theorem getD_not_mem (l : List Char) (c : Char) (h : c ∉ l) (hd : '?' ≠ c) (k : Nat) :
    l.getD k '?' ≠ c := by
  rw [List.getD_eq_getElem?_getD]
  cases hk : l[k]? with
  | none => simpa using hd
  | some x =>
    simp only [Option.getD_some]
    intro hx
    subst hx
    exact h (List.getElem?_mem hk)

theorem occursAt_getD (pat s : List Char) (p : Nat) (hp : occursAtB pat s p = true)
    (k : Nat) (hk : k < pat.length) : s.getD (p + k) '?' = pat.getD k '?' := by
  simp only [occursAtB, decide_eq_true_eq] at hp
  have h1 : pat.getD k '?' = ((s.drop p).take pat.length).getD k '?' := by rw [hp]
  rw [h1, List.getD_eq_getElem?_getD, List.getD_eq_getElem?_getD,
    List.getElem?_take, if_pos hk, List.getElem?_drop]

theorem getD_append_off (x y : List Char) (k : Nat) :
    (x ++ y).getD (x.length + k) '?' = y.getD k '?' := by
  rw [List.getD_append_right x y '?' (x.length + k) (by omega)]
  congr 1
  omega

theorem toDigitsCore_ne_nil (fuel : Nat) :
    ∀ (n : Nat) (ds : List Char), 1 ≤ fuel ∨ ds ≠ [] → Nat.toDigitsCore 10 fuel n ds ≠ [] := by
  induction fuel with
  | zero =>
    intro n ds h
    rcases h with h | h
    · omega
    · exact h
  | succ fuel ih =>
    intro n ds _
    rw [Nat.toDigitsCore]
    by_cases h : n / 10 = 0
    · rw [if_pos h]; simp
    · rw [if_neg h]
      exact ih (n / 10) _ (Or.inr (by simp))

theorem repr_ne_nil (n : Nat) : (Nat.repr n).data ≠ [] := by
  have h : (Nat.repr n).data = Nat.toDigitsCore 10 (n + 1) n [] := rfl
  rw [h]
  exact toDigitsCore_ne_nil (n + 1) n [] (Or.inl (by omega))

theorem csvNames_no_semicolon (chs : List SrChannel)
    (hnames : ∀ ch ∈ chs, ';' ∉ ch.name) :
    ∀ (l : List SrChannel), l ⊆ chs → ∀ (acc : List Char), ';' ∉ acc →
    ';' ∉ l.foldl (fun acc ch => acc ++ " ".data ++ ch.name ++ ",".data) acc := by
  intro l
  induction l with
  | nil => intro _ acc hacc; exact hacc
  | cons ch rest ih =>
    intro hsub acc hacc
    simp only [List.foldl_cons]
    refine ih (fun x hx => hsub (List.mem_cons_of_mem _ hx)) _ ?_
    intro hmem
    rcases List.mem_append.mp hmem with h | h
    · rcases List.mem_append.mp h with h1 | h1
      · rcases List.mem_append.mp h1 with h2 | h2
        · exact hacc h2
        · simp at h2
      · exact hnames ch (hsub (List.mem_cons_self _ _)) h1
    · simp at h

/-- In a text of the shape `';' :: a ++ ';' :: nt ++ b1 ++ ';' :: b2` whose
pieces `a`, `nt`, `b1`, `b2` contain no semicolon, the semicolons sit at
exactly the three segment heads. -/

theorem semicolon_pos (a nt b1 b2 : List Char)
    (ha : ';' ∉ a) (hnt : ';' ∉ nt) (hb1 : ';' ∉ b1) (hb2 : ';' ∉ b2) (q : Nat)
    (hq : ((';' :: a) ++ ((';' :: nt) ++ (b1 ++ (';' :: b2)))).getD q '?' = ';') :
    q = 0 ∨ q = a.length + 1 ∨ q = a.length + 1 + nt.length + 1 + b1.length := by
  by_cases h1 : q < (';' :: a).length
  · rw [List.getD_append _ _ _ _ h1] at hq
    rcases Nat.eq_zero_or_pos q with h0 | h0
    · exact Or.inl h0
    · obtain ⟨k, rfl⟩ : ∃ k, q = k + 1 := ⟨q - 1, by omega⟩
      rw [List.getD_cons_succ] at hq
      exact absurd hq (getD_not_mem a ';' ha (by decide) k)
  · push_neg at h1
    obtain ⟨m, hm⟩ : ∃ m, q = (';' :: a).length + m := ⟨q - (';' :: a).length, by omega⟩
    subst hm
    rw [getD_append_off] at hq
    by_cases h2 : m < (';' :: nt).length
    · rw [List.getD_append _ _ _ _ h2] at hq
      rcases Nat.eq_zero_or_pos m with h0 | h0
      · subst h0
        right; left
        simp
      · obtain ⟨k, rfl⟩ : ∃ k, m = k + 1 := ⟨m - 1, by omega⟩
        rw [List.getD_cons_succ] at hq
        exact absurd hq (getD_not_mem nt ';' hnt (by decide) k)
    · push_neg at h2
      obtain ⟨m2, hm2⟩ : ∃ m2, m = (';' :: nt).length + m2 := ⟨m - (';' :: nt).length, by omega⟩
      subst hm2
      rw [getD_append_off] at hq
      by_cases h3 : m2 < b1.length
      · rw [List.getD_append _ _ _ _ h3] at hq
        exact absurd hq (getD_not_mem b1 ';' hb1 (by decide) m2)
      · push_neg at h3
        obtain ⟨m3, hm3⟩ : ∃ m3, m2 = b1.length + m3 := ⟨m2 - b1.length, by omega⟩
        subst hm3
        rw [getD_append_off] at hq
        rcases Nat.eq_zero_or_pos m3 with h0 | h0
        · subst h0
          right; right
          simp
          omega
        · obtain ⟨k, rfl⟩ : ∃ k, m3 = k + 1 := ⟨m3 - 1, by omega⟩
          rw [List.getD_cons_succ] at hq
          exact absurd hq (getD_not_mem b2 ';' hb2 (by decide) k)

/-- csv.c header, decomposed at its three semicolon-prefixed lines.  The
`Samplerate` line sits between the generation-note segment and the
`Channels` segment. -/

theorem csvHeader_decomp (pkg timestr : List Char) (sr : Nat) (chs : List SrChannel) :
    csvHeader pkg timestr sr chs
      = (';' :: (" CSV, generated by ".data ++ (pkg ++ (" on ".data ++ timestr))))
        ++ ((';' :: " Samplerate: ".data)
          ++ (((Nat.repr sr).data ++ "\n".data)
            ++ (';' :: (" Channels (".data
              ++ ((if chs ≠ [] then
                    ((Nat.repr (num_enabled_channels chs)).data ++ ("/".data
                      ++ ((Nat.repr chs.length).data ++ ("):".data
                        ++ (enabledLogic chs).foldl
                            (fun acc ch => acc ++ " ".data ++ ch.name ++ ",".data) [])))).dropLast
                  else
                    (Nat.repr (num_enabled_channels chs)).data ++ ("/".data
                      ++ ((Nat.repr chs.length).data ++ ("):".data
                        ++ (enabledLogic chs).foldl
                            (fun acc ch => acc ++ " ".data ++ ch.name ++ ",".data) []))))
                ++ "\n".data))))) := by
  have e20 : "; CSV, generated by ".data = ';' :: " CSV, generated by ".data := rfl
  have e14 : "; Samplerate: ".data = ';' :: " Samplerate: ".data := rfl
  have e12 : "; Channels (".data = ';' :: " Channels (".data := rfl
  by_cases h : chs = []
  · rw [if_neg (by simp [h])]
    simp only [csvHeader, h, ne_eq, not_true_eq_false, if_false, ite_false]
    simp [List.append_assoc, e20, e14, e12, List.cons_append]
  · rw [if_pos h]
    have hX : (Nat.repr (num_enabled_channels chs)).data ++ ("/".data
        ++ ((Nat.repr chs.length).data ++ ("):".data
          ++ (enabledLogic chs).foldl
              (fun acc ch => acc ++ " ".data ++ ch.name ++ ",".data) []))) ≠ [] := by
      intro heq
      exact repr_ne_nil _ (List.append_eq_nil.mp heq).1
    calc csvHeader pkg timestr sr chs
        = (("; CSV, generated by ".data ++ (pkg ++ (" on ".data ++ (timestr
            ++ ("; Samplerate: ".data ++ ((Nat.repr sr).data ++ ("\n".data
            ++ "; Channels (".data)))))))
          ++ ((Nat.repr (num_enabled_channels chs)).data ++ ("/".data
            ++ ((Nat.repr chs.length).data ++ ("):".data
              ++ (enabledLogic chs).foldl
                  (fun acc ch => acc ++ " ".data ++ ch.name ++ ",".data) []))))).dropLast
          ++ "\n".data := by
          simp [csvHeader, h, List.append_assoc]
      _ = (("; CSV, generated by ".data ++ (pkg ++ (" on ".data ++ (timestr
            ++ ("; Samplerate: ".data ++ ((Nat.repr sr).data ++ ("\n".data
            ++ "; Channels (".data)))))))
          ++ ((Nat.repr (num_enabled_channels chs)).data ++ ("/".data
            ++ ((Nat.repr chs.length).data ++ ("):".data
              ++ (enabledLogic chs).foldl
                  (fun acc ch => acc ++ " ".data ++ ch.name ++ ",".data) [])))).dropLast)
          ++ "\n".data := by
          rw [List.dropLast_append_of_ne_nil _ hX]
      _ = _ := by
          simp [List.append_assoc, e20, e14, e12, List.cons_append]

/-- The csv header contains the `; Samplerate: ` marker exactly once (namely
in its Samplerate line, which always carries the printed rate and a
newline), and contains the `; Channels (` line, provided the free-text
inputs carry no semicolon of their own. -/

theorem csvHeader_samplerate_unique (pkg timestr : List Char) (sr : Nat) (chs : List SrChannel)
    (hpkg : ';' ∉ pkg) (hts : ';' ∉ timestr) (hnames : ∀ ch ∈ chs, ';' ∉ ch.name) :
    countOcc "; Samplerate: ".data (csvHeader pkg timestr sr chs) = 1
    ∧ containsSub ("; Samplerate: ".data ++ ((Nat.repr sr).data ++ "\n".data))
        (csvHeader pkg timestr sr chs) = true
    ∧ containsSub "; Channels (".data (csvHeader pkg timestr sr chs) = true := by
  have hs := csvHeader_decomp pkg timestr sr chs
  have hXfree : ';' ∉ (if chs ≠ [] then
        ((Nat.repr (num_enabled_channels chs)).data ++ ("/".data
          ++ ((Nat.repr chs.length).data ++ ("):".data
            ++ (enabledLogic chs).foldl
                (fun acc ch => acc ++ " ".data ++ ch.name ++ ",".data) [])))).dropLast
      else
        (Nat.repr (num_enabled_channels chs)).data ++ ("/".data
          ++ ((Nat.repr chs.length).data ++ ("):".data
            ++ (enabledLogic chs).foldl
                (fun acc ch => acc ++ " ".data ++ ch.name ++ ",".data) [])))) := by
    have hXbase : ';' ∉ (Nat.repr (num_enabled_channels chs)).data ++ ("/".data
        ++ ((Nat.repr chs.length).data ++ ("):".data
          ++ (enabledLogic chs).foldl
              (fun acc ch => acc ++ " ".data ++ ch.name ++ ",".data) []))) := by
      intro hm
      rcases List.mem_append.mp hm with h | h
      · exact repr_not_mem _ ';' (by decide) h
      · rcases List.mem_append.mp h with h | h
        · exact absurd h (by decide)
        · rcases List.mem_append.mp h with h | h
          · exact repr_not_mem _ ';' (by decide) h
          · rcases List.mem_append.mp h with h | h
            · exact absurd h (by decide)
            · exact csvNames_no_semicolon chs hnames (enabledLogic chs)
                (List.Sublist.subset (List.filter_sublist chs)) [] (by simp) h
    split
    · intro hm; exact hXbase (List.dropLast_subset _ hm)
    · exact hXbase
  rw [hs]
  clear hs
  generalize hXg : (if chs ≠ [] then
        ((Nat.repr (num_enabled_channels chs)).data ++ ("/".data
          ++ ((Nat.repr chs.length).data ++ ("):".data
            ++ (enabledLogic chs).foldl
                (fun acc ch => acc ++ " ".data ++ ch.name ++ ",".data) [])))).dropLast
      else
        (Nat.repr (num_enabled_channels chs)).data ++ ("/".data
          ++ ((Nat.repr chs.length).data ++ ("):".data
            ++ (enabledLogic chs).foldl
                (fun acc ch => acc ++ " ".data ++ ch.name ++ ",".data) [])))) = X
  rw [hXg] at hXfree
  have ha : ';' ∉ " CSV, generated by ".data ++ (pkg ++ (" on ".data ++ timestr)) := by
    intro hm
    rcases List.mem_append.mp hm with h | h
    · exact absurd h (by decide)
    · rcases List.mem_append.mp h with h | h
      · exact hpkg h
      · rcases List.mem_append.mp h with h | h
        · exact absurd h (by decide)
        · exact hts h
  have hb2 : ';' ∉ " Channels (".data ++ (X ++ "\n".data) := by
    intro hm
    rcases List.mem_append.mp hm with h | h
    · exact absurd h (by decide)
    · rcases List.mem_append.mp h with h | h
      · exact hXfree h
      · exact absurd h (by decide)
  generalize hag : " CSV, generated by ".data ++ (pkg ++ (" on ".data ++ timestr)) = a
  rw [hag] at ha
  generalize hb2g : " Channels (".data ++ (X ++ "\n".data) = b2
  rw [hb2g] at hb2
  have hb1 : ';' ∉ (Nat.repr sr).data ++ "\n".data := by
    intro hm
    rcases List.mem_append.mp hm with h | h
    · exact repr_not_mem _ ';' (by decide) h
    · exact absurd h (by decide)
  generalize hb1g : (Nat.repr sr).data ++ "\n".data = b1
  rw [hb1g] at hb1
  generalize hntg : " Samplerate: ".data = nt
  have hnt : ';' ∉ nt := by rw [← hntg]; decide
  have hcons : "; Samplerate: ".data = ';' :: nt := by rw [← hntg]
  have halen : 19 ≤ a.length := by
    rw [← hag]
    simp [List.length_append]
  have haC : a.getD 1 '?' = 'C' := by
    rw [← hag, List.getD_append _ _ _ _ (by decide)]
    decide
  have hb2C : b2.getD 1 '?' = 'C' := by
    rw [← hb2g, List.getD_append _ _ _ _ (by decide)]
    decide
  have hocc : occursAtB ("; Samplerate: ".data)
      ((';' :: a) ++ ((';' :: nt) ++ (b1 ++ (';' :: b2)))) (a.length + 1) = true := by
    simp only [occursAtB, decide_eq_true_eq]
    rw [List.drop_left' (show (';' :: a).length = a.length + 1 by simp)]
    rw [List.take_left' (show (';' :: nt).length = ("; Samplerate: ".data).length by
      rw [hcons])]
    rw [← hntg]
  have hfull : occursAtB ("; Samplerate: ".data ++ b1)
      ((';' :: a) ++ ((';' :: nt) ++ (b1 ++ (';' :: b2)))) (a.length + 1) = true := by
    simp only [occursAtB, decide_eq_true_eq]
    rw [List.drop_left' (show (';' :: a).length = a.length + 1 by simp)]
    rw [show (';' :: nt) ++ (b1 ++ (';' :: b2)) = ((';' :: nt) ++ b1) ++ (';' :: b2) by
      rw [List.append_assoc]]
    rw [List.take_left' (show ((';' :: nt) ++ b1).length
        = ("; Samplerate: ".data ++ b1).length by rw [hcons])]
    rw [← hntg]
  have huniq : ∀ p, occursAtB ("; Samplerate: ".data)
      ((';' :: a) ++ ((';' :: nt) ++ (b1 ++ (';' :: b2)))) p = true → p = a.length + 1 := by
    intro p hp
    have h0 := occursAt_getD _ _ p hp 0 (by decide)
    have h2 := occursAt_getD _ _ p hp 2 (by decide)
    rw [show ("; Samplerate: ".data).getD 0 '?' = ';' from rfl, Nat.add_zero] at h0
    rw [show ("; Samplerate: ".data).getD 2 '?' = 'S' from rfl] at h2
    rcases semicolon_pos a nt b1 b2 ha hnt hb1 hb2 p h0 with h | h | h
    · exfalso
      subst h
      rw [Nat.zero_add] at h2
      have hC : ((';' :: a) ++ ((';' :: nt) ++ (b1 ++ (';' :: b2)))).getD 2 '?' = 'C' := by
        rw [List.getD_append _ _ _ _ (by simp; omega)]
        rw [show ((';' :: a).getD 2 '?') = a.getD 1 '?' from rfl]
        exact haC
      exact absurd (hC.symm.trans h2) (by decide)
    · exact h
    · exfalso
      subst h
      have hC : ((';' :: a) ++ ((';' :: nt) ++ (b1 ++ (';' :: b2)))).getD
          (a.length + 1 + nt.length + 1 + b1.length + 2) '?' = 'C' := by
        rw [show a.length + 1 + nt.length + 1 + b1.length + 2
            = (';' :: a).length + ((';' :: nt).length + (b1.length + 2)) by
          simp [List.length_cons]
          omega]
        rw [getD_append_off, getD_append_off, getD_append_off]
        rw [show ((';' :: b2).getD 2 '?') = b2.getD 1 '?' from rfl]
        exact hb2C
      exact absurd (hC.symm.trans h2) (by decide)
  have hlen : a.length + 1
      < ((';' :: a) ++ ((';' :: nt) ++ (b1 ++ (';' :: b2)))).length + 1 := by
    simp [List.length_append]
    omega
  refine ⟨?_, ?_, ?_⟩
  · unfold countOcc occList
    rw [filter_range_single _ _ (a.length + 1) hlen
      (fun k => ⟨huniq k, fun hk => hk ▸ hocc⟩)]
    rfl
  · unfold containsSub
    rw [List.any_eq_true]
    exact ⟨a.length + 1, List.mem_range.mpr hlen, hfull⟩
  · unfold containsSub
    rw [List.any_eq_true]
    refine ⟨a.length + 1 + nt.length + 1 + b1.length, List.mem_range.mpr (by
      simp [List.length_append]
      omega), ?_⟩
    simp only [occursAtB, decide_eq_true_eq]
    rw [show (';' :: a) ++ ((';' :: nt) ++ (b1 ++ (';' :: b2)))
        = ((';' :: a) ++ ((';' :: nt) ++ b1)) ++ (';' :: b2) by simp [List.append_assoc]]
    rw [List.drop_left' (by
      simp [List.length_append, List.length_cons]
      omega)]
    rw [← hb2g]
    rw [show (';' :: (" Channels (".data ++ (X ++ "\n".data)))
        = "; Channels (".data ++ (X ++ "\n".data) from rfl]
    rw [List.take_left' rfl]

/-- The gnuplot chunk loop increments the sample counter exactly once per
visited offset, whether or not the unit's row is suppressed. -/

theorem gnuplotLoop_samplecount (data : List Nat) (us bound : Nat) :
    ∀ (i sc : Nat) (prev : List Nat),
    (gnuplotLoop data us bound i sc prev).1 = sc + (loopOffsets bound us i).length := by
  intro i sc prev
  induction i, sc, prev using gnuplotLoop.induct data us bound with
  | case1 i sc prev h =>
    rw [gnuplotLoop, if_pos h, loopOffsets, if_pos h]
    rfl
  | case2 i sc prev h _ hcond ih =>
    rw [gnuplotLoop, if_neg h, loopOffsets, if_neg h]
    rw [if_pos hcond]
    rw [ih]
    simp [List.length_cons]
    omega
  | case3 i sc prev h _ hcond ih =>
    rw [gnuplotLoop, if_neg h, loopOffsets, if_neg h]
    rw [if_neg hcond]
    show (gnuplotLoop data us bound (i + us) (sc + 1) _).1 = _
    rw [ih]
    simp [List.length_cons]
    omega

/-- C9: opening the sparse/gnuplot variant fails with an error (SR_ERR, the
no-channels failure) if and only if the channel list contains no enabled
logic channel — in which case no context is produced — whereas opening the
dense/CSV variant always returns SR_OK, and its selection is empty exactly
in that no-enabled-logic-channel case. -/

theorem c9_open_failure (pkg timestr : List Char) (srStr periodStr : Nat → List Char)
    (cfg : Option Nat) (chs : List SrChannel) :
    ((gnuplotInit pkg timestr srStr periodStr cfg chs).2 = SR_ERR
      ↔ num_enabled_channels chs = 0)
    ∧ ((gnuplotInit pkg timestr srStr periodStr cfg chs).1 = none
      ↔ num_enabled_channels chs = 0)
    ∧ (csvInit pkg timestr cfg chs).2 = SR_OK
    ∧ ((csvInit pkg timestr cfg chs).1.channel_index = []
      ↔ num_enabled_channels chs = 0) := by
  refine ⟨?_, ?_, rfl, ?_⟩
  · unfold gnuplotInit
    split
    · rename_i h
      simp [h]
    · rename_i h
      simp only []
      constructor
      · intro hx
        exact absurd hx (by decide)
      · intro hx
        exact absurd hx h
  · unfold gnuplotInit
    split
    · rename_i h
      simp [h]
    · rename_i h
      simp only []
      constructor
      · intro hx
        exact absurd hx (by simp)
      · intro hx
        exact absurd hx h
  · show channelIndexFrom 0 chs = [] ↔ _
    rw [← List.length_eq_zero, channelIndexFrom_length, num_enabled_channels_eq]

/-- C10: for any non-logic packet both variants return SR_OK, leave the out
parameter unset, and leave the whole context — pending header, selection,
previous-sample memory, counter — untouched; a pending header is therefore
still emitted, as the prefix of the buffer, by the first logic packet that
follows. -/

theorem c10_nonlogic (cctx : CsvContext) (gctx : GnuplotContext) :
    csvReceive cctx Packet.other = (cctx, none, SR_OK)
    ∧ gnuplotReceive gctx Packet.other = ⟨gctx, none, SR_OK, []⟩
    ∧ (∀ (H : List Char) (len us : Nat) (data : List Nat), cctx.header = some H →
        ∃ rest, (csvReceive cctx (Packet.logic len us data)).2.1 = some (H ++ rest))
    ∧ (∀ (H : List Char) (len us : Nat) (data : List Nat), gctx.header = some H →
        ∃ rest, (gnuplotReceive gctx (Packet.logic len us data)).out = some (H ++ rest)) := by
  refine ⟨rfl, rfl, ?_, ?_⟩
  · intro H len us data hh
    refine ⟨csvChunkRows cctx.channel_index cctx.separator data len us, ?_⟩
    simp [csvReceive, hh]
  · intro H len us data hh
    refine ⟨(((gnuplotReceive gctx (Packet.logic len us data)).pairs).map
        (fun pr => gnuplotRowText gctx.channel_index pr.1 pr.2)).flatten, ?_⟩
    rw [(gnuplotReceive_parts gctx len us data).2, hh]

/-- Witness for C10 at a concrete context holding a pending header. -/

theorem c10_witness :
    (∃ rest, (csvReceive ⟨1, 0, some ['h'], ',', [0]⟩ (Packet.logic 1 1 [0])).2.1
      = some (['h'] ++ rest))
    ∧ (∃ rest, (gnuplotReceive ⟨1, 0, some ['h'], none, [0]⟩ (Packet.logic 1 1 [0])).out
      = some (['h'] ++ rest)) :=
  ⟨(c10_nonlogic ⟨1, 0, some ['h'], ',', [0]⟩ ⟨1, 0, some ['h'], none, [0]⟩).2.2.1
      ['h'] 1 1 [0] rfl,
   (c10_nonlogic ⟨1, 0, some ['h'], ',', [0]⟩ ⟨1, 0, some ['h'], none, [0]⟩).2.2.2
      ['h'] 1 1 [0] rfl⟩

/-- C5: the channel selection built by both inits lists, in original order,
the 0-based full-list positions of exactly the enabled logic channels, and
its length is the number of enabled logic channels. -/

theorem c5_channel_selection (pkg timestr : List Char) (cfg : Option Nat)
    (srStr periodStr : Nat → List Char) (chs : List SrChannel) :
    (csvInit pkg timestr cfg chs).1.channel_index
      = ((List.enumFrom 0 chs).filter
          (fun pr => decide (pr.2.type = ChannelType.logic ∧ pr.2.enabled = true))).map Prod.fst
    ∧ (csvInit pkg timestr cfg chs).1.channel_index.length
      = chs.countP (fun ch => decide (ch.type = ChannelType.logic ∧ ch.enabled = true))
    ∧ (∀ gctx, (gnuplotInit pkg timestr srStr periodStr cfg chs).1 = some gctx →
        gctx.channel_index = (csvInit pkg timestr cfg chs).1.channel_index) := by
  refine ⟨channelIndexFrom_eq chs 0, ?_, ?_⟩
  · show (channelIndexFrom 0 chs).length = _
    rw [channelIndexFrom_length]
  · intro gctx hg
    unfold gnuplotInit at hg
    split at hg
    · simp at hg
    · simp only [Option.some.injEq] at hg
      subst hg
      rfl

/-- Witness for C5 on a mixed channel list (analog, disabled, enabled). -/

theorem c5_witness :
    (((gnuplotInit "p".data "t".data (fun _ => []) (fun _ => []) none
        [⟨"X".data, ChannelType.other, true⟩, ⟨"A".data, ChannelType.logic, false⟩,
         ⟨"B".data, ChannelType.logic, true⟩]).1).getD ⟨0, 0, none, none, []⟩).channel_index
      = (csvInit "p".data "t".data none
        [⟨"X".data, ChannelType.other, true⟩, ⟨"A".data, ChannelType.logic, false⟩,
         ⟨"B".data, ChannelType.logic, true⟩]).1.channel_index :=
  (c5_channel_selection "p".data "t".data none (fun _ => []) (fun _ => [])
    [⟨"X".data, ChannelType.other, true⟩, ⟨"A".data, ChannelType.logic, false⟩,
     ⟨"B".data, ChannelType.logic, true⟩]).2.2 _ rfl

/-- C6: for a bit index in range of the unit, both decoders extract
`(byte[idx/8] >> (idx%8)) & 1`, and both render it as the character '1'
when that bit is 1 and '0' when it is 0. -/

theorem c6_bit_extraction (unit : List Nat) (idx : Nat) (hidx : idx / 8 < unit.length) :
    gnuplotCurbit (unit.getD (idx / 8) 0) idx
      = ((unit.getD (idx / 8) 0) >>> (idx % 8)) &&& 1
    ∧ (csvBitChar (unit.getD (idx / 8) 0) idx
        = if ((unit.getD (idx / 8) 0) >>> (idx % 8)) &&& 1 = 1 then '1' else '0')
    ∧ ((Nat.repr (gnuplotCurbit (unit.getD (idx / 8) 0) idx)).data
        = [if ((unit.getD (idx / 8) 0) >>> (idx % 8)) &&& 1 = 1 then '1' else '0']) := by
  have hb := bit_extract (unit.getD (idx / 8) 0) (idx % 8) (Nat.mod_lt _ (by norm_num))
  have h1 : gnuplotCurbit (unit.getD (idx / 8) 0) idx
      = ((unit.getD (idx / 8) 0) >>> (idx % 8)) &&& 1 := hb.1
  refine ⟨h1, ?_, ?_⟩
  · unfold csvBitChar csvBitVal
    by_cases h : ((unit.getD (idx / 8) 0) >>> (idx % 8)) &&& 1 = 1
    · rw [if_pos (hb.2.mpr h), if_pos h]
    · rw [if_neg (fun hne => h (hb.2.mp hne)), if_neg h]
  · rw [h1]
    have hle : ((unit.getD (idx / 8) 0) >>> (idx % 8)) &&& 1 ≤ 1 := Nat.and_le_right
    rcases Nat.lt_or_ge (((unit.getD (idx / 8) 0) >>> (idx % 8)) &&& 1) 1 with h | h
    · have h0 : ((unit.getD (idx / 8) 0) >>> (idx % 8)) &&& 1 = 0 := by omega
      rw [h0]
      decide
    · have h0 : ((unit.getD (idx / 8) 0) >>> (idx % 8)) &&& 1 = 1 := by omega
      rw [h0]
      decide

/-- Witness for C6 at unit [5] (bits 101) and idx 2. -/

theorem c6_witness : 2 / 8 < ([5] : List Nat).length
    ∧ gnuplotCurbit (([5] : List Nat).getD (2 / 8) 0) 2
      = ((([5] : List Nat).getD (2 / 8) 0) >>> (2 % 8)) &&& 1 :=
  ⟨by decide, (c6_bit_extraction [5] 2 (by decide)).1⟩

/-- C1 counterexample: a stream of three identical units, split as three
single-unit chunks, emits three rows — not the two rows the claim promises
for any split of n ≥ 2 identical units. -/

theorem c1_counterexample :
    (streamUnits [Packet.logic 1 1 [0], Packet.logic 1 1 [0], Packet.logic 1 1 [0]]).length = 3
    ∧ (∀ u ∈ streamUnits [Packet.logic 1 1 [0], Packet.logic 1 1 [0], Packet.logic 1 1 [0]],
        u = [0])
    ∧ ((gnuplotRun (((gnuplotInit "p".data "t".data (fun _ => []) (fun _ => []) none
          [⟨"A".data, ChannelType.logic, true⟩]).1).getD ⟨0, 0, none, none, []⟩)
        [Packet.logic 1 1 [0], Packet.logic 1 1 [0], Packet.logic 1 1 [0]]).2.2).length = 3 := by
  have h1 : ∀ ctx : GnuplotContext, (gnuplotReceive ctx (Packet.logic 1 1 [0])).pairs.length = 1 := by
    intro ctx
    rw [gnuplotReceive_logic ctx 1 1 [0] (by decide) (by decide) (by decide) (by decide)]
    show (List.map _ (List.filter _ (List.range (1 / 1)))).length = 1
    rw [List.length_map]
    rw [show List.range (1 / 1) = [0] from rfl, List.filter_cons]
    simp
  refine ⟨rfl, by decide, ?_⟩
  simp only [gnuplotRun, List.append_nil, List.length_append, h1]

/-- C1 (amended): suppression in the gnuplot variant is chunk-relative: a
unit's row is suppressed iff the unit is neither the first nor the last unit
of its own chunk and is byte-for-byte identical to the immediately preceding
unit.  Consequently a single chunk of n ≥ 2 identical units emits exactly 2
rows and a single-unit chunk emits exactly 1 row; splitting identical units
across several chunks emits more rows (each chunk re-emits its first and
last unit).  Stated for chunk lengths below 2^32 and a non-wrapping sample
counter, where the Nat model coincides with gnuplot.c's 32-bit loop
counter and uint64 samplecount; for lengths ≥ 2^32 the C loop counter
wraps and receive never returns. -/

theorem c1_amended (ctx : GnuplotContext) (len us : Nat) (data : List Nat)
    (hus : 0 < us) (hdvd : us ∣ len) (hlen : 0 < len) (hbig : len < 2 ^ 32)
    (hsc : ctx.samplecount + len / us < 2 ^ 64) :
    ((gnuplotReceive ctx (Packet.logic len us data)).pairs
      = ((List.range (len / us)).filter
          (fun j => decide (j = 0 ∨ j = len / us - 1 ∨
            chunkUnit data us j ≠ chunkUnit data us (j - 1)))).map
        (fun j => ((match ctx.header with | some _ => 0 | none => ctx.samplecount) + j + 1,
          chunkUnit data us j)))
    ∧ ((∀ j < len / us, chunkUnit data us j = chunkUnit data us 0) →
        (2 ≤ len / us → (gnuplotReceive ctx (Packet.logic len us data)).pairs.length = 2)
        ∧ (len / us = 1 → (gnuplotReceive ctx (Packet.logic len us data)).pairs.length = 1)) := by
  have hrl := gnuplotReceive_logic ctx len us data hus hdvd hlen
    (Nat.lt_trans hbig (by norm_num))
  have hp : (gnuplotReceive ctx (Packet.logic len us data)).pairs
      = ((List.range (len / us)).filter
          (fun j => decide (j = 0 ∨ j = len / us - 1 ∨
            chunkUnit data us j ≠ chunkUnit data us (j - 1)))).map
        (fun j => ((match ctx.header with | some _ => 0 | none => ctx.samplecount) + j + 1,
          chunkUnit data us j)) := by
    rw [hrl]
  refine ⟨hp, ?_⟩
  intro hall
  constructor
  · intro h2
    rw [hp, List.length_map, filter_keep_allsame data us (len / us) hall h2]
    rfl
  · intro h1
    rw [hp, List.length_map, h1, show List.range 1 = [0] from rfl, List.filter_cons]
    simp

/-- Witness for C1 (amended) on one chunk of five identical units. -/

theorem c1_witness :
    (gnuplotReceive ⟨1, 0, none, none, [0]⟩ (Packet.logic 5 1 [7, 7, 7, 7, 7])).pairs.length = 2 :=
  ((c1_amended ⟨1, 0, none, none, [0]⟩ 5 1 [7, 7, 7, 7, 7]
    (by decide) (by decide) (by decide) (by decide) (by decide)).2 (by decide)).1 (by decide)

theorem gnuplotRowText_ne_nil (sel : List Nat) (sc : Nat) (sample : List Nat) :
    gnuplotRowText sel sc sample ≠ [] := by
  unfold gnuplotRowText
  intro h
  simp only [List.append_eq_nil] at h
  exact repr_ne_nil sc h.1.1.1

theorem flat_map_ne_nil {α : Type} (f : α → List Char) (l : List α)
    (hl : l ≠ []) (hf : ∀ x, f x ≠ []) : (List.map f l).flatten ≠ [] := by
  cases l with
  | nil => exact absurd rfl hl
  | cons x t =>
    intro h
    rw [List.map_cons, List.flatten_cons, List.append_eq_nil] at h
    exact hf x h.1

theorem csvRow_ne_nil (data : List Nat) (i : Nat) (sel : List Nat) (sep : Char) :
    csvRow data i sel sep ≠ [] := by
  unfold csvRow
  intro h
  exact List.cons_ne_nil _ _ (List.append_eq_nil.mp h).2

theorem loopOffsets_empty_step :
    loopOffsets (sub64 0 1) 1 0 = 0 :: loopOffsets (sub64 0 1) 1 1 := by
  rw [loopOffsets]
  rw [if_neg (by simp)]

theorem csvChunkRows_empty_ne (sel : List Nat) (sep : Char) :
    csvChunkRows sel sep [] 0 1 ≠ [] := by
  have hne : loopOffsets (sub64 0 1) 1 0 ≠ [] := by
    rw [loopOffsets_empty_step]
    exact List.cons_ne_nil _ _
  unfold csvChunkRows
  exact flat_map_ne_nil _ _ hne (fun i => csvRow_ne_nil [] i sel sep)

theorem csvReceive_logic_parts (ctx : CsvContext) (len us : Nat) (data : List Nat) :
    (csvReceive ctx (Packet.logic len us data)).2.1
    = some ((match ctx.header with | some b => b | none => [])
        ++ csvChunkRows ctx.channel_index ctx.separator data len us) := rfl

theorem csvReceive_logic_out_ne_none (ctx : CsvContext) (len us : Nat) (data : List Nat) :
    (csvReceive ctx (Packet.logic len us data)).2.1 ≠ none := by
  intro h
  exact Option.noConfusion ((csvReceive_logic_parts ctx len us data).symm.trans h)

theorem csvReceive_empty_out_ne (ctx : CsvContext) :
    (csvReceive ctx (Packet.logic 0 1 [])).2.1 ≠ some [] := by
  intro h
  have h4 := Option.some.inj ((csvReceive_logic_parts ctx 0 1 []).symm.trans h)
  exact csvChunkRows_empty_ne _ _ (List.append_eq_nil.mp h4).2

theorem gnuplotReceive_logic_out_ne_none (ctx : GnuplotContext) (len us : Nat)
    (data : List Nat) : (gnuplotReceive ctx (Packet.logic len us data)).out ≠ none := by
  intro h
  exact Option.noConfusion (((gnuplotReceive_parts ctx len us data).2).symm.trans h)

theorem gnuplotReceive_empty_pairs (ctx : GnuplotContext) (hh : ctx.header = none) :
    (gnuplotReceive ctx (Packet.logic 0 1 [])).pairs
    = (gnuplotLoop [] 1 (sub64 0 1) 0 ctx.samplecount
        (match ctx.prevsample with | some ps => ps | none => List.replicate 1 0)).2.2 := by
  simp [gnuplotReceive, hh]

theorem gnuplotLoop_empty_step (sc : Nat) (prev : List Nat) :
    (gnuplotLoop [] 1 (sub64 0 1) 0 sc prev).2.2
    = (sc + 1, readUnit [] 0 1)
      :: (gnuplotLoop [] 1 (sub64 0 1) (0 + 1) (sc + 1) (readUnit [] 0 1)).2.2 := by
  rw [gnuplotLoop]
  rw [if_neg (by simp)]
  rw [if_neg (by simp)]

theorem gnuplotReceive_empty_out_ne (ctx : GnuplotContext) (hh : ctx.header = none) :
    (gnuplotReceive ctx (Packet.logic 0 1 [])).out ≠ some [] := by
  have hpne : (gnuplotReceive ctx (Packet.logic 0 1 [])).pairs ≠ [] := by
    rw [gnuplotReceive_empty_pairs ctx hh, gnuplotLoop_empty_step]
    exact List.cons_ne_nil _ _
  intro h
  have h3 := ((gnuplotReceive_parts ctx 0 1 []).2).symm.trans h
  have h4 := Option.some.inj h3
  have h2 : ((gnuplotReceive ctx (Packet.logic 0 1 [])).pairs.map
      (fun pr => gnuplotRowText ctx.channel_index pr.1 pr.2)).flatten = [] :=
    (List.append_eq_nil.mp h4).2
  exact flat_map_ne_nil _ _ hpne (fun x => gnuplotRowText_ne_nil _ _ _) h2

/-- C2 (code bug): an empty chunk (length = 0) processed mid-stream does
NOT produce a buffer containing zero rows.  The loop condition
`i <= logic->length - logic->unitsize` underflows in unsigned arithmetic,
so at least one row of out-of-bounds data is appended in csv.c (gnuplot.c,
whose loop counter is 32-bit, never even terminates); in the model the
produced buffer is nonempty instead of empty. -/

theorem c2_empty_chunk_bug :
    ((csvReceive (csvReceive (csvInit "p".data "t".data none
        [⟨"A".data, ChannelType.logic, true⟩]).1 (Packet.logic 1 1 [0])).1
        (Packet.logic 0 1 [])).2.1 ≠ none)
    ∧ ((csvReceive (csvReceive (csvInit "p".data "t".data none
        [⟨"A".data, ChannelType.logic, true⟩]).1 (Packet.logic 1 1 [0])).1
        (Packet.logic 0 1 [])).2.1 ≠ some [])
    ∧ ((csvReceive (csvInit "p".data "t".data none
        [⟨"A".data, ChannelType.logic, true⟩]).1 (Packet.logic 1 1 [0])).1.header = none)
    ∧ ((gnuplotReceive (gnuplotReceive (((gnuplotInit "p".data "t".data
        (fun _ => []) (fun _ => []) none
        [⟨"A".data, ChannelType.logic, true⟩]).1).getD ⟨0, 0, none, none, []⟩)
        (Packet.logic 1 1 [0])).ctx (Packet.logic 0 1 [])).out ≠ none)
    ∧ ((gnuplotReceive (gnuplotReceive (((gnuplotInit "p".data "t".data
        (fun _ => []) (fun _ => []) none
        [⟨"A".data, ChannelType.logic, true⟩]).1).getD ⟨0, 0, none, none, []⟩)
        (Packet.logic 1 1 [0])).ctx (Packet.logic 0 1 [])).out ≠ some []) := by
  have hgh : (gnuplotReceive (((gnuplotInit "p".data "t".data
      (fun _ => []) (fun _ => []) none
      [⟨"A".data, ChannelType.logic, true⟩]).1).getD ⟨0, 0, none, none, []⟩)
      (Packet.logic 1 1 [0])).ctx.header = none :=
    (gnuplotReceive_parts _ 1 1 [0]).1
  exact ⟨csvReceive_logic_out_ne_none _ 0 1 [], csvReceive_empty_out_ne _,
    rfl, gnuplotReceive_logic_out_ne_none _ 0 1 [], gnuplotReceive_empty_out_ne _ hgh⟩

/-- C4 counterexample: a chunk whose length (3) is not a multiple of the
unit size (2) is accepted: both receive functions return SR_OK — no
ContractViolation-style failure exists in the code. -/

theorem c4_counterexample :
    (csvReceive ⟨1, 0, none, ',', [0]⟩ (Packet.logic 3 2 [0, 0, 0])).2.2 = SR_OK
    ∧ (gnuplotReceive ⟨1, 0, none, none, [0]⟩ (Packet.logic 3 2 [0, 0, 0])).rc = SR_OK
    ∧ (loopOffsets (sub64 3 2) 2 0).length = 1
    ∧ SR_OK ≠ SR_ERR ∧ SR_OK ≠ SR_ERR_ARG ∧ SR_OK ≠ SR_ERR_MALLOC := by
  have hoff : (loopOffsets (sub64 3 2) 2 0).length = 1 := by
    rw [show sub64 3 2 = 1 from by decide]
    rw [loopOffsets_length 1 2 0 (by decide) (by decide)]
  refine ⟨rfl, rfl, hoff, by decide, by decide, by decide⟩

/-- C4 (amended): chunk processing performs no defensive validation.  For a
chunk length that is not a multiple of unit_size (with unitsize ≤ length),
both variants return SR_OK — never an error — and silently process exactly
the ⌊length/unitsize⌋ complete leading units: the csv loop visits that many
offsets and, for lengths below 2^32 (where gnuplot.c's 32-bit loop counter
is faithful) with a non-wrapping samplecount, the gnuplot counter advances
by exactly that amount.  An out-of-range bit index is likewise read
without any bounds check. -/

theorem c4_amended (cctx : CsvContext) (gctx : GnuplotContext) (len us : Nat)
    (data : List Nat) (hus : 0 < us) (hle : us ≤ len) (hbig : len < 2 ^ 64)
    (hnd : ¬ us ∣ len) :
    (csvReceive cctx (Packet.logic len us data)).2.2 = SR_OK
    ∧ (loopOffsets (sub64 len us) us 0).length = len / us
    ∧ (len < 2 ^ 32 → (gnuplotReceive gctx (Packet.logic len us data)).rc = SR_OK)
    ∧ (len < 2 ^ 32 → gctx.samplecount + len / us < 2 ^ 64 →
        (gnuplotReceive gctx (Packet.logic len us data)).ctx.samplecount
        = (match gctx.header with | some _ => 0 | none => gctx.samplecount) + len / us) := by
  have hb : sub64 len us = len - us := sub64_of_le len us hle hbig
  have hdiv : (len - us) / us + 1 = len / us := by
    have h1 : (len - us + us) / us = (len - us) / us + 1 := Nat.add_div_right _ hus
    rw [Nat.sub_add_cancel hle] at h1
    omega
  have hlenoff : (loopOffsets (sub64 len us) us 0).length = len / us := by
    rw [hb, loopOffsets_length (len - us) us 0 hus (by omega), Nat.sub_zero, hdiv]
  refine ⟨rfl, hlenoff, fun _ => rfl, fun _ _ => ?_⟩
  show (gnuplotLoop data us (sub64 len us) 0
      (match gctx.header with | some _ => 0 | none => gctx.samplecount)
      (match gctx.prevsample with | some ps => ps | none => List.replicate us 0)).1 = _
  rw [gnuplotLoop_samplecount, hlenoff]

/-- Witness for C4 (amended) at length 3, unit size 2. -/

theorem c4_witness :
    (csvReceive ⟨1, 0, none, ',', [0]⟩ (Packet.logic 3 2 [0, 0, 0])).2.2 = SR_OK
    ∧ (loopOffsets (sub64 3 2) 2 0).length = 3 / 2 :=
  ⟨(c4_amended ⟨1, 0, none, ',', [0]⟩ ⟨1, 0, none, none, [0]⟩ 3 2 [0, 0, 0]
      (by decide) (by decide) (by decide) (by decide)).1,
   (c4_amended ⟨1, 0, none, ',', [0]⟩ ⟨1, 0, none, none, [0]⟩ 3 2 [0, 0, 0]
      (by decide) (by decide) (by decide) (by decide)).2.1⟩

/-- C3 counterexample: opening csv.c with no resolved samplerate
(sr_config_get fails, cfg = none) still produces a header containing a
`Samplerate:` line — the line is printed with rate 0, not omitted. -/

theorem c3_counterexample :
    (csvInit "p".data "t".data none [⟨"A".data, ChannelType.logic, true⟩]).1.samplerate = 0
    ∧ containsSub "Samplerate:".data
        (((csvInit "p".data "t".data none
          [⟨"A".data, ChannelType.logic, true⟩]).1.header).getD []) = true :=
  ⟨rfl, by decide⟩

/-- C3 (amended): the csv.c header always contains exactly one
`; Samplerate: <rate>` line, `<rate>` being ctx->samplerate — which is 0
when sr_config_get reports no samplerate — and the `; Channels (` line is
always present, provided the package string, the time string and the
channel names are semicolon-free. -/

theorem c3_amended (pkg timestr : List Char) (cfg : Option Nat) (chs : List SrChannel)
    (hpkg : ';' ∉ pkg) (hts : ';' ∉ timestr) (hnames : ∀ ch ∈ chs, ';' ∉ ch.name) :
    ∃ H, (csvInit pkg timestr cfg chs).1.header = some H
      ∧ countOcc "; Samplerate: ".data H = 1
      ∧ containsSub ("; Samplerate: ".data
          ++ ((Nat.repr ((csvInit pkg timestr cfg chs).1.samplerate)).data ++ "\n".data)) H
          = true
      ∧ containsSub "; Channels (".data H = true
      ∧ (cfg = none → (csvInit pkg timestr cfg chs).1.samplerate = 0) := by
  cases cfg with
  | none =>
    have hu := csvHeader_samplerate_unique pkg timestr 0 chs hpkg hts hnames
    exact ⟨csvHeader pkg timestr 0 chs, rfl, hu.1, hu.2.1, hu.2.2, fun _ => rfl⟩
  | some rate =>
    have hu := csvHeader_samplerate_unique pkg timestr rate chs hpkg hts hnames
    exact ⟨csvHeader pkg timestr rate chs, rfl, hu.1, hu.2.1, hu.2.2,
      fun h => absurd h (by simp)⟩

/-- Witness for C3 (amended) at a concrete open with unknown samplerate. -/

theorem c3_witness :
    (';' ∉ "p".data) ∧ (';' ∉ "t".data)
    ∧ (∀ ch ∈ [(⟨"A".data, ChannelType.logic, true⟩ : SrChannel)], ';' ∉ ch.name)
    ∧ ∃ H, (csvInit "p".data "t".data none
        [⟨"A".data, ChannelType.logic, true⟩]).1.header = some H
      ∧ countOcc "; Samplerate: ".data H = 1
      ∧ containsSub ("; Samplerate: ".data
          ++ ((Nat.repr ((csvInit "p".data "t".data none
              [⟨"A".data, ChannelType.logic, true⟩]).1.samplerate)).data ++ "\n".data)) H
          = true
      ∧ containsSub "; Channels (".data H = true
      ∧ ((none : Option Nat) = none → (csvInit "p".data "t".data none
          [⟨"A".data, ChannelType.logic, true⟩]).1.samplerate = 0) :=
  ⟨by decide, by decide, by decide,
    c3_amended "p".data "t".data none [⟨"A".data, ChannelType.logic, true⟩]
      (by decide) (by decide) (by decide)⟩

theorem wfPacket32_wf (p : Packet) (h : wfPacket32 p) : wfPacket p := by
  cases p with
  | logic len us data =>
    exact ⟨h.1, h.2.1, h.2.2.1, Nat.lt_trans h.2.2.2 (by norm_num)⟩
  | other => trivial

/-- C7: once at least one logic chunk is processed, the concatenation of
all buffers a stream produces contains the header exactly once, that
occurrence is a prefix of the first produced buffer, and no buffer after
the first contains the header text — for csv.c and for gnuplot.c (any
successfully opened context).  Stated for streams of in-contract chunks
(positive unit size dividing a positive length below 2^32) whose total
unit count keeps the uint64 sample counter from wrapping: the region
where both C receive loops terminate and match the model. -/

theorem c7_header_once (pkg timestr : List Char) (cfg : Option Nat) (chs : List SrChannel)
    (srStr periodStr : Nat → List Char) (ps : List Packet)
    (hlogic : ∃ p ∈ ps, p ≠ Packet.other)
    (hwf : ∀ p ∈ ps, wfPacket32 p) (htot : (streamUnits ps).length < 2 ^ 64) :
    (∃ r rest,
        (csvRun (csvInit pkg timestr cfg chs).1 ps).2
          = (csvHeader pkg timestr (csvInit pkg timestr cfg chs).1.samplerate chs ++ r) :: rest
        ∧ countOcc (csvHeader pkg timestr (csvInit pkg timestr cfg chs).1.samplerate chs)
            ((csvRun (csvInit pkg timestr cfg chs).1 ps).2.flatten) = 1
        ∧ ∀ b ∈ rest, containsSub
            (csvHeader pkg timestr (csvInit pkg timestr cfg chs).1.samplerate chs) b = false)
    ∧ (∀ gctx, (gnuplotInit pkg timestr srStr periodStr cfg chs).1 = some gctx →
        ∀ H, gctx.header = some H →
        ∃ r rest, (gnuplotRun gctx ps).2.1 = (H ++ r) :: rest
          ∧ countOcc H ((gnuplotRun gctx ps).2.1.flatten) = 1
          ∧ ∀ b ∈ rest, containsSub H b = false) := by
  have hne : ∀ c : Char, (c = '0' ∨ c = '1' ∨ c = ',' ∨ c = '\n') → ¬ c = ';' := by
    rintro c (rfl | rfl | rfl | rfl) <;> decide
  have hgne : ∀ c : Char, (c.isDigit = true ∨ c = '\t' ∨ c = ' ' ∨ c = '\n') → ¬ c = '#' := by
    rintro c (h | rfl | rfl | rfl)
    · intro h2
      rw [h2] at h
      exact absurd h (by decide)
    all_goals decide
  constructor
  · rcases (csvRun_some ps (csvInit pkg timestr cfg chs).1
        (csvHeader pkg timestr (csvInit pkg timestr cfg chs).1.samplerate chs)
        rfl rfl).2 hlogic with ⟨r, rest, heq, hr, hrest⟩
    rcases csvHeader_shape pkg timestr (csvInit pkg timestr cfg chs).1.samplerate chs
      with ⟨t, ht⟩
    have hsemi : ';' ∉ r ++ rest.flatten := by
      intro hmem
      rcases List.mem_append.mp hmem with hm | hm
      · exact hne ';' (hr ';' hm) rfl
      · rcases List.mem_flatten.mp hm with ⟨b, hb, hcb⟩
        exact hne ';' (hrest b hb ';' hcb) rfl
    refine ⟨r, rest, heq, ?_, ?_⟩
    · rw [heq, List.flatten_cons, List.append_assoc]
      exact countOcc_prefix_unique _ _ ';' t ht hsemi
    · intro b hb
      refine containsSub_false _ b ';' (by rw [ht]; exact List.mem_cons_self _ _) ?_
      intro hmem
      exact hne ';' (hrest b hb ';' hmem) rfl
  · intro gctx hinit H hH
    rcases (gnuplotRun_some ps gctx H hH).2 hlogic with ⟨r, rest, heq, hr, hrest⟩
    have hHform : ∃ t, H = '#' :: t := by
      by_cases h0 : num_enabled_channels chs = 0
      · unfold gnuplotInit at hinit
        rw [if_pos h0] at hinit
        exact absurd hinit (by simp)
      · unfold gnuplotInit at hinit
        rw [if_neg h0] at hinit
        simp only [Option.some.injEq] at hinit
        rw [← hinit] at hH
        simp only [Option.some.injEq] at hH
        rw [← hH]
        exact gnuplotHeader_shape _ _ _ _ _
    rcases hHform with ⟨t, ht⟩
    have hsh : '#' ∉ r ++ rest.flatten := by
      intro hmem
      rcases List.mem_append.mp hmem with hm | hm
      · exact hgne '#' (hr '#' hm) rfl
      · rcases List.mem_flatten.mp hm with ⟨b, hb, hcb⟩
        exact hgne '#' (hrest b hb '#' hcb) rfl
    refine ⟨r, rest, heq, ?_, ?_⟩
    · rw [heq, List.flatten_cons, List.append_assoc]
      exact countOcc_prefix_unique _ _ '#' t ht hsh
    · intro b hb
      refine containsSub_false _ b '#' (by rw [ht]; exact List.mem_cons_self _ _) ?_
      intro hmem
      exact hgne '#' (hrest b hb '#' hmem) rfl

/-- Witness for C7 on a one-chunk stream. -/

theorem c7_witness :
    (∃ p ∈ [Packet.logic 1 1 [0]], p ≠ Packet.other)
    ∧ (∀ p ∈ [Packet.logic 1 1 [0]], wfPacket32 p)
    ∧ ((streamUnits [Packet.logic 1 1 [0]]).length < 2 ^ 64)
    ∧ ((∃ r rest,
        (csvRun (csvInit "p".data "t".data none
            [⟨"A".data, ChannelType.logic, true⟩]).1 [Packet.logic 1 1 [0]]).2
          = (csvHeader "p".data "t".data (csvInit "p".data "t".data none
              [⟨"A".data, ChannelType.logic, true⟩]).1.samplerate
              [⟨"A".data, ChannelType.logic, true⟩] ++ r) :: rest
        ∧ countOcc (csvHeader "p".data "t".data (csvInit "p".data "t".data none
              [⟨"A".data, ChannelType.logic, true⟩]).1.samplerate
              [⟨"A".data, ChannelType.logic, true⟩])
            ((csvRun (csvInit "p".data "t".data none
              [⟨"A".data, ChannelType.logic, true⟩]).1 [Packet.logic 1 1 [0]]).2.flatten) = 1
        ∧ ∀ b ∈ rest, containsSub
            (csvHeader "p".data "t".data (csvInit "p".data "t".data none
              [⟨"A".data, ChannelType.logic, true⟩]).1.samplerate
              [⟨"A".data, ChannelType.logic, true⟩]) b = false)
    ∧ (∀ gctx, (gnuplotInit "p".data "t".data (fun _ => []) (fun _ => []) none
          [⟨"A".data, ChannelType.logic, true⟩]).1 = some gctx →
        ∀ H, gctx.header = some H →
        ∃ r rest, (gnuplotRun gctx [Packet.logic 1 1 [0]]).2.1 = (H ++ r) :: rest
          ∧ countOcc H ((gnuplotRun gctx [Packet.logic 1 1 [0]]).2.1.flatten) = 1
          ∧ ∀ b ∈ rest, containsSub H b = false)) :=
  ⟨⟨Packet.logic 1 1 [0], by simp, by simp⟩, by decide, by decide,
    c7_header_once "p".data "t".data none [⟨"A".data, ChannelType.logic, true⟩]
      (fun _ => []) (fun _ => []) [Packet.logic 1 1 [0]]
      ⟨Packet.logic 1 1 [0], by simp, by simp⟩ (by decide) (by decide)⟩

/-- C8: over any well-formed chunk sequence from a fresh gnuplot.c open,
the final sample counter equals the total number of units processed
(suppressed ones included, so it is bumped once per unit and never
resets), every emitted row's counter is that unit's 1-based position in
the whole stream (its sample being the unit at that position), and the
emitted counters are strictly increasing.  Stated for streams of
in-contract chunks with lengths below 2^32 whose total unit count is
below 2^64: there gnuplot.c's 32-bit loop counter and uint64 samplecount
never wrap and the Nat model is exact. -/

theorem c8_sample_counter (pkg timestr : List Char) (srStr periodStr : Nat → List Char)
    (cfg : Option Nat) (chs : List SrChannel) (ps : List Packet) (gctx : GnuplotContext)
    (hinit : (gnuplotInit pkg timestr srStr periodStr cfg chs).1 = some gctx)
    (hwf : ∀ p ∈ ps, wfPacket32 p) (htot : (streamUnits ps).length < 2 ^ 64) :
    (gnuplotRun gctx ps).1.samplecount = (streamUnits ps).length
    ∧ (∀ pr ∈ (gnuplotRun gctx ps).2.2,
        1 ≤ pr.1 ∧ pr.1 ≤ (streamUnits ps).length
        ∧ pr.2 = (streamUnits ps).getD (pr.1 - 1) [])
    ∧ List.Pairwise (fun a b => a.1 < b.1) (gnuplotRun gctx ps).2.2 := by
  have hsc : gctx.samplecount = 0 := by
    by_cases h0 : num_enabled_channels chs = 0
    · unfold gnuplotInit at hinit
      rw [if_pos h0] at hinit
      exact absurd hinit (by simp)
    · unfold gnuplotInit at hinit
      rw [if_neg h0] at hinit
      simp only [Option.some.injEq] at hinit
      rw [← hinit]
  have h := gnuplotRun_spec ps gctx 0 (fun p hp => wfPacket32_wf p (hwf p hp)) hsc
    (fun _ => rfl)
  refine ⟨by simpa using h.1, ?_, h.2.2⟩
  intro pr hpr
  have h2 := h.2.1 pr hpr
  simpa using h2

/-- Witness for C8 on a fresh context and one two-unit chunk. -/

theorem c8_witness :
    (∀ p ∈ [Packet.logic 2 1 [0, 1]], wfPacket32 p)
    ∧ ((streamUnits [Packet.logic 2 1 [0, 1]]).length < 2 ^ 64)
    ∧ ((gnuplotRun ((gnuplotInit "p".data "t".data (fun _ => []) (fun _ => []) none
          [⟨"A".data, ChannelType.logic, true⟩]).1.getD ⟨0, 0, none, none, []⟩)
        [Packet.logic 2 1 [0, 1]]).1.samplecount
        = (streamUnits [Packet.logic 2 1 [0, 1]]).length
    ∧ (∀ pr ∈ (gnuplotRun ((gnuplotInit "p".data "t".data (fun _ => []) (fun _ => []) none
          [⟨"A".data, ChannelType.logic, true⟩]).1.getD ⟨0, 0, none, none, []⟩)
        [Packet.logic 2 1 [0, 1]]).2.2,
        1 ≤ pr.1 ∧ pr.1 ≤ (streamUnits [Packet.logic 2 1 [0, 1]]).length
        ∧ pr.2 = (streamUnits [Packet.logic 2 1 [0, 1]]).getD (pr.1 - 1) [])
    ∧ List.Pairwise (fun a b => a.1 < b.1)
        (gnuplotRun ((gnuplotInit "p".data "t".data (fun _ => []) (fun _ => []) none
          [⟨"A".data, ChannelType.logic, true⟩]).1.getD ⟨0, 0, none, none, []⟩)
        [Packet.logic 2 1 [0, 1]]).2.2) :=
  ⟨by decide, by decide,
    c8_sample_counter "p".data "t".data (fun _ => []) (fun _ => []) none
      [⟨"A".data, ChannelType.logic, true⟩] [Packet.logic 2 1 [0, 1]]
      ((gnuplotInit "p".data "t".data (fun _ => []) (fun _ => []) none
        [⟨"A".data, ChannelType.logic, true⟩]).1.getD ⟨0, 0, none, none, []⟩)
      rfl (by decide) (by decide)⟩

end Sigrok
